import Mathlib

/-!
Verification development for the TRN (Tool Resource Name) library
(`trn/constants.py`, `trn/parser.py`, `trn/validator.py`, `trn/core.py`,
`trn/url_converter.py`, `trn/utils.py`).

The Python source is shallowly embedded: strings are Lean `String`s
(lists of characters; the ASCII fragment, which is all the TRN grammar
admits, is modelled exactly), exceptions become `Except`, and the
class-level validation cache becomes explicit state passing.
The compiled regular expression `TRN_REGEX` is embedded as an explicit
matcher over the colon/at-sign segmentation of the input; the ordering
of the optional-group combinations reproduces the backtracking order of
the Python regex engine (present before absent, leftmost group first),
which is exact here because no character class of the grammar contains
the separators `:` or `@`.
-/

namespace TRNSpec

/-! ### Character classes (from `constants.py` patterns) -/

/-- `[a-z]` -/
def isLowerAlpha (c : Char) : Bool := 97 ≤ c.toNat && c.toNat ≤ 122

/-- `[0-9]` -/
def isDigitCh (c : Char) : Bool := 48 ≤ c.toNat && c.toNat ≤ 57

/-- `[a-z0-9]` -/
def isLowerDigit (c : Char) : Bool := isLowerAlpha c || isDigitCh c

/-- `[a-z0-9-]` -/
def isLDH (c : Char) : Bool := isLowerDigit c || c = '-'

/-- `[a-z0-9.-]` (VERSION_PATTERN body) -/
def isVersionChar (c : Char) : Bool := isLowerDigit c || c = '.' || c = '-'

/-- `[a-z0-9:]` (HASH_PATTERN body) -/
def isHashChar (c : Char) : Bool := isLowerDigit c || c = ':'

/-- `[a-f0-9]` (hex digits of HASH_FORMAT_PATTERN) -/
def isHexLower (c : Char) : Bool := isDigitCh c || (97 ≤ c.toNat && c.toNat ≤ 102)

/-- PLATFORM_PATTERN = `[a-z][a-z0-9-]{1,31}` as a full-segment match. -/
def platformOk : List Char → Bool
  | [] => false
  | c :: rest => isLowerAlpha c && rest.all isLDH && 1 ≤ rest.length && rest.length ≤ 31

/-- SCOPE_PATTERN = `[a-z0-9][a-z0-9-]{0,31}` as a full-segment match. -/
def scopeOk : List Char → Bool
  | [] => false
  | c :: rest => isLowerDigit c && rest.all isLDH && rest.length ≤ 31

/-- RESOURCE_TYPE_PATTERN = `[a-z][a-z0-9-]{1,15}` as a full-segment match. -/
def rtypeOk : List Char → Bool
  | [] => false
  | c :: rest => isLowerAlpha c && rest.all isLDH && 1 ≤ rest.length && rest.length ≤ 15

/-- TYPE_PATTERN = SUBTYPE_PATTERN = `[a-z][a-z0-9-]{1,31}` as a full-segment match. -/
def typeOk : List Char → Bool
  | [] => false
  | c :: rest => isLowerAlpha c && rest.all isLDH && 1 ≤ rest.length && rest.length ≤ 31

/-- INSTANCE_ID_PATTERN = `[a-z0-9][a-z0-9-]{0,63}` as a full-segment match. -/
def instOk : List Char → Bool
  | [] => false
  | c :: rest => isLowerDigit c && rest.all isLDH && rest.length ≤ 63

/-- VERSION_PATTERN = `[a-z0-9][a-z0-9.-]{0,31}` as a full-segment match. -/
def versionOk : List Char → Bool
  | [] => false
  | c :: rest => isLowerDigit c && rest.all isVersionChar && rest.length ≤ 31

/-- TAG_PATTERN = `[a-z0-9][a-z0-9-]{0,15}` as a full-segment match. -/
def tagOk : List Char → Bool
  | [] => false
  | c :: rest => isLowerDigit c && rest.all isLDH && rest.length ≤ 15

/-- HASH_PATTERN = `[a-z0-9:]{8,71}` as a full-segment match. -/
def hashOk (l : List Char) : Bool :=
  l.all isHashChar && 8 ≤ l.length && l.length ≤ 71

/-! ### Enumerated vocabularies (from `constants.py`) -/

def supportedPlatforms : List String := ["aiplatform", "user", "org"]

def supportedResourceTypes : List String := ["tool", "dataset", "pipeline", "model"]

def supportedToolSubtypes : List String := ["async", "streaming", "batch", "sync", "realtime"]

def reservedWords : List String :=
  ["__internal__", "__system__", "__admin__", "__test__", "system", "internal",
   "admin", "root", "super", "null", "undefined", "reserved"]

def commonAliases : List String :=
  ["latest", "stable", "beta", "alpha", "dev", "experimental", "lts", "rc"]

def versionOperators : List String := ["==", "!=", ">", ">=", "<", "<=", "~", "^"]

def hashAlgorithms : List String := ["md5", "sha1", "sha256", "sha512", "crc32"]

/-- DEFAULT_CONFIG["max_cache_size"] -/
def maxCacheSize : Nat := 1000

/-- DEFAULT_CONFIG["cache_validation_results"] -/
def cacheValidationResults : Bool := true

/-- DEFAULT_CONFIG["normalize_on_parse"] -/
def normalizeOnParse : Bool := true

/-- DEFAULT_CONFIG["strict_validation"] -/
def strictValidationDefault : Bool := true

/-- DEFAULT_CONFIG["validate_on_create"] -/
def validateOnCreate : Bool := true

/-! ### The component set (`TRNComponents` in `core.py`) -/

/-- The nine named fields of a TRN.  Required fields are `String`
(Python uses plain `str`); optional fields are `Option String`
(Python uses `Optional[str]` defaulting to `None`). -/
structure Components where
  platform : String
  resource_type : String
  type : String
  instance_id : String
  version : String
  scope : Option String := none
  subtype : Option String := none
  tag : Option String := none
  hash : Option String := none
deriving Repr, DecidableEq

/-- Python truthiness of an optional string field (`if self.scope:`),
false for `None` and for the empty string. -/
def isPresent : Option String → Bool
  | none => false
  | some s => s ≠ ""

/-! ### Error taxonomy (`exceptions.py`) -/

/-- The exception kinds the parser and validator actually raise.
`validationError` carries the rule identifier; `lengthError`,
`characterError` and `reservedWordError` are the specializations of
`TRNValidationError`; `componentError` and `formatError` are separate
branches of the `TRNError` hierarchy. -/
inductive Err where
  | formatError (msg : String)
  | validationError (msg : String) (rule : String)
  | componentError (msg : String) (component : String)
  | lengthError (msg : String) (length : Nat) (maxLength : Nat)
  | characterError (msg : String) (invalidChar : String)
  | reservedWordError (msg : String) (word : String) (component : String)
deriving Repr, DecidableEq

instance {ε α : Type} [DecidableEq ε] [DecidableEq α] : DecidableEq (Except ε α) := fun a b =>
  match a, b with
  | .ok x, .ok y =>
      if h : x = y then .isTrue (by rw [h]) else .isFalse (by simp [h])
  | .error x, .error y =>
      if h : x = y then .isTrue (by rw [h]) else .isFalse (by simp [h])
  | .ok _, .error _ => .isFalse (by simp)
  | .error _, .ok _ => .isFalse (by simp)

/-- Whether the exception is (a subclass of) `TRNValidationError`.
`TRNComponentError` and `TRNFormatError` are not. -/
def isValidationErr : Err → Bool
  | .validationError _ _ => true
  | .lengthError _ _ _ => true
  | .characterError _ _ => true
  | .reservedWordError _ _ _ => true
  | _ => false

/-- The `__str__` rendering of each exception kind (rule/component
present in every raise site of the validator). -/
def errStr : Err → String
  | .formatError m => "TRN Format Error: " ++ m
  | .validationError m r => "TRN Validation Error (" ++ r ++ "): " ++ m
  | .componentError m c => "TRN Component Error " ++ c ++ ": " ++ m
  | .lengthError m len maxLen =>
      if len ≠ 0 && maxLen ≠ 0 then
        "TRN Length Error: " ++ m ++ " (" ++ toString len ++ "/" ++ toString maxLen ++ " chars)"
      else "TRN Length Error: " ++ m
  | .characterError m ch => "TRN Character Error: invalid " ++ ch ++ " " ++ m
  | .reservedWordError _ w c => "TRN Reserved Word Error: " ++ w ++ " is reserved in component " ++ c

/-! ### The compiled grammar TRN_REGEX as an explicit matcher

`TRN_REGEX` is
`^trn:(P)(?::(S))?:(R):(T)(?::(U))?:(I):(V)(?::(G))?(?:@(H))?$`.
No character class of the main groups contains `:` or `@`, and the hash
class contains no `@`; hence a match decomposes the input as
`trn:` + colon-separated segments (+ `@` + hash), every group consumes
exactly one whole segment, and the Python engine resolves the optional
groups by trying present-before-absent, leftmost first.  With `n`
segments, the combinations with matching count are tried in this
backtracking order: 5 segments → no optionals; 6 → scope, then subtype,
then tag; 7 → scope+subtype, then scope+tag, then subtype+tag;
8 → all three. -/

def assignSegs (segs : List (List Char)) (h : Option String) : Option Components :=
  match segs with
  | [p, r, t, i, v] =>
      if platformOk p && rtypeOk r && typeOk t && instOk i && versionOk v then
        some { platform := ⟨p⟩, resource_type := ⟨r⟩, type := ⟨t⟩,
               instance_id := ⟨i⟩, version := ⟨v⟩, hash := h }
      else none
  | [s1, s2, s3, s4, s5, s6] =>
      if platformOk s1 && scopeOk s2 && rtypeOk s3 && typeOk s4 && instOk s5 && versionOk s6 then
        some { platform := ⟨s1⟩, scope := some ⟨s2⟩, resource_type := ⟨s3⟩, type := ⟨s4⟩,
               instance_id := ⟨s5⟩, version := ⟨s6⟩, hash := h }
      else if platformOk s1 && rtypeOk s2 && typeOk s3 && typeOk s4 && instOk s5 && versionOk s6 then
        some { platform := ⟨s1⟩, resource_type := ⟨s2⟩, type := ⟨s3⟩, subtype := some ⟨s4⟩,
               instance_id := ⟨s5⟩, version := ⟨s6⟩, hash := h }
      else if platformOk s1 && rtypeOk s2 && typeOk s3 && instOk s4 && versionOk s5 && tagOk s6 then
        some { platform := ⟨s1⟩, resource_type := ⟨s2⟩, type := ⟨s3⟩,
               instance_id := ⟨s4⟩, version := ⟨s5⟩, tag := some ⟨s6⟩, hash := h }
      else none
  | [s1, s2, s3, s4, s5, s6, s7] =>
      if platformOk s1 && scopeOk s2 && rtypeOk s3 && typeOk s4 && typeOk s5 && instOk s6 && versionOk s7 then
        some { platform := ⟨s1⟩, scope := some ⟨s2⟩, resource_type := ⟨s3⟩, type := ⟨s4⟩,
               subtype := some ⟨s5⟩, instance_id := ⟨s6⟩, version := ⟨s7⟩, hash := h }
      else if platformOk s1 && scopeOk s2 && rtypeOk s3 && typeOk s4 && instOk s5 && versionOk s6 && tagOk s7 then
        some { platform := ⟨s1⟩, scope := some ⟨s2⟩, resource_type := ⟨s3⟩, type := ⟨s4⟩,
               instance_id := ⟨s5⟩, version := ⟨s6⟩, tag := some ⟨s7⟩, hash := h }
      else if platformOk s1 && rtypeOk s2 && typeOk s3 && typeOk s4 && instOk s5 && versionOk s6 && tagOk s7 then
        some { platform := ⟨s1⟩, resource_type := ⟨s2⟩, type := ⟨s3⟩, subtype := some ⟨s4⟩,
               instance_id := ⟨s5⟩, version := ⟨s6⟩, tag := some ⟨s7⟩, hash := h }
      else none
  | [s1, s2, s3, s4, s5, s6, s7, s8] =>
      if platformOk s1 && scopeOk s2 && rtypeOk s3 && typeOk s4 && typeOk s5 && instOk s6 && versionOk s7 && tagOk s8 then
        some { platform := ⟨s1⟩, scope := some ⟨s2⟩, resource_type := ⟨s3⟩, type := ⟨s4⟩,
               subtype := some ⟨s5⟩, instance_id := ⟨s6⟩, version := ⟨s7⟩, tag := some ⟨s8⟩, hash := h }
      else none
  | _ => none

/-- Split the text after `trn:` at the (unique) `@`, as the regex does:
the main groups cannot contain `@`, so a second `@` makes the whole
match fail. -/
def hashSplit (l : List Char) : Option (List Char × Option (List Char)) :=
  if '@' ∈ l then
    if '@' ∈ (l.dropWhile (· ≠ '@')).tail then none
    else some (l.takeWhile (· ≠ '@'), some ((l.dropWhile (· ≠ '@')).tail))
  else some (l, none)

/-- `TRN_REGEX.match` together with group extraction
(`TRNParser._extract_components_from_match`): `some` of the nine
captured groups on a full match, `none` otherwise. -/
def matchTRN (s : String) : Option Components :=
  match s.data with
  | 't' :: 'r' :: 'n' :: ':' :: rest =>
      match hashSplit rest with
      | none => none
      | some (main, hopt) =>
          match hopt with
          | some h => if hashOk h then assignSegs (main.splitOn ':') (some ⟨h⟩) else none
          | none => assignSegs (main.splitOn ':') none
  | _ => none

/-! ### `TRN._build_string` (`core.py`) -/

/-- The part list `_build_string` joins with `:`
(optional parts appended only when truthy). -/
def buildParts (c : Components) : List (List Char) :=
  ["trn".data, c.platform.data]
    ++ (match c.scope with | some s => if s = "" then [] else [s.data] | none => [])
    ++ [c.resource_type.data, c.type.data]
    ++ (match c.subtype with | some s => if s = "" then [] else [s.data] | none => [])
    ++ [c.instance_id.data, c.version.data]
    ++ (match c.tag with | some s => if s = "" then [] else [s.data] | none => [])

/-- `TRN._build_string`: join the parts with `:` and append `@hash`
when the hash is truthy. -/
def buildString (c : Components) : String :=
  ⟨List.intercalate [':'] (buildParts c)
    ++ (match c.hash with | some h => if h = "" then [] else '@' :: h.data | none => [])⟩

/-! ### `TRNParser.normalize_string` (`parser.py`) -/

/-- ASCII model of `str.lower` on one character. -/
def pyLowerChar (c : Char) : Char :=
  if 65 ≤ c.toNat && c.toNat ≤ 90 then Char.ofNat (c.toNat + 32) else c

/-- ASCII model of the whitespace `str.strip` removes. -/
def pyIsSpace (c : Char) : Bool :=
  c.toNat = 32 || (9 ≤ c.toNat && c.toNat ≤ 13)

/-- `str.strip`: drop whitespace from both ends. -/
def pyStrip (l : List Char) : List Char :=
  ((l.dropWhile pyIsSpace).reverse.dropWhile pyIsSpace).reverse

/-- `re.sub(r":+", ":", ·)`: collapse every run of consecutive colons
to a single colon. -/
def collapseColons : List Char → List Char
  | [] => []
  | [c] => [c]
  | c1 :: c2 :: rest =>
      if c1 = ':' && c2 = ':' then collapseColons (c2 :: rest)
      else c1 :: collapseColons (c2 :: rest)

/-- Reassembly step of `normalize_string`: collapse colon runs in
`parts[0]` and reattach `parts[1]` (the text between the first and
second `@`) when truthy; any later parts are dropped, as the source
reads only `parts[1]`. -/
def normalizeAssemble (parts : List (List Char)) : String :=
  match parts[1]? with
  | some h =>
      if h ≠ [] then ⟨collapseColons (parts.headD []) ++ '@' :: h⟩
      else ⟨collapseColons (parts.headD [])⟩
  | none => ⟨collapseColons (parts.headD [])⟩

/-- `TRNParser.normalize_string`: lowercase, strip, split on `@`,
collapse colon runs in the main part, and reattach the hash part when
truthy. -/
def normalizeString (s : String) : String :=
  if s = "" then s
  else normalizeAssemble ((pyStrip (s.data.map pyLowerChar)).splitOn '@')

/-! ### Recovery-parser heuristics (`parser.py`) -/

/-- ASCII model of Python `str.isalnum` (non-empty, all alphanumeric). -/
def pyIsAlnum (l : List Char) : Bool :=
  !l.isEmpty && l.all fun c => isLowerAlpha c || isDigitCh c || (65 ≤ c.toNat && c.toNat ≤ 90)

/-- `TRNParser._looks_like_scope`. -/
def looksLikeScope (value platform : String) : Bool :=
  if platform = "user" then 2 ≤ value.length && pyIsAlnum value.data
  else if platform = "org" then 2 ≤ value.length
  else if platform = "aiplatform" then false
  else value.length ≤ 32 && pyIsAlnum (value.data.filter (· ≠ '-'))

/-- `re.match` (prefix, IGNORECASE) of `v?\d+\.\d+\.\d+`. -/
def vpatSemver (l : List Char) : Bool :=
  let l := match l with | 'v' :: t => t | 'V' :: t => t | _ => l
  let d1 := l.takeWhile isDigitCh
  let r1 := l.drop d1.length
  match d1, r1 with
  | _ :: _, '.' :: r2 =>
      let d2 := r2.takeWhile isDigitCh
      let r3 := r2.drop d2.length
      match d2, r3 with
      | _ :: _, '.' :: r4 => (r4.headD ' ').isDigit
      | _, _ => false
  | _, _ => false

/-- `re.match` (prefix, IGNORECASE) of `v?\d+\.\d+`. -/
def vpatMajorMinor (l : List Char) : Bool :=
  let l := match l with | 'v' :: t => t | 'V' :: t => t | _ => l
  let d1 := l.takeWhile isDigitCh
  let r1 := l.drop d1.length
  match d1, r1 with
  | _ :: _, '.' :: r2 => (r2.headD ' ').isDigit
  | _, _ => false

/-- `re.match` (prefix, IGNORECASE) of `v?\d+`. -/
def vpatMajor (l : List Char) : Bool :=
  let l := match l with | 'v' :: t => t | 'V' :: t => t | _ => l
  (l.headD ' ').isDigit

/-- `re.match` (IGNORECASE) of the anchored alias alternation
`^(latest|stable|beta|alpha|dev|rc)$`. -/
def vpatAlias (l : List Char) : Bool :=
  let low : String := ⟨l.map pyLowerChar⟩
  low = "latest" || low = "stable" || low = "beta" || low = "alpha" || low = "dev" || low = "rc"

/-- `TRNParser._looks_like_version` — the disjunction of the four
version patterns (the same four prefix patterns recur in
`TRNValidator._validate_version`, whose trailing `.*$` makes them
prefix matches as well). -/
def looksLikeVersion (value : String) : Bool :=
  vpatSemver value.data || vpatMajorMinor value.data || vpatMajor value.data || vpatAlias value.data

/-! ### `TRNParser._map_recovery_components` and `_recovery_parse` -/

/-- `TRNParser._map_recovery_components`: positional mapping of the
parts (after the `trn` prefix is removed) driven by the part count and
the scope/version shape heuristics. -/
def mapRecoveryComponents (parts : List String) (hashValue : Option String) :
    Except Err Components :=
  match parts with
  | [p0, p1, p2, p3, p4] =>
      .ok { platform := p0, resource_type := p1, type := p2,
            instance_id := p3, version := p4, hash := hashValue }
  | [p0, p1, p2, p3, p4, p5] =>
      if looksLikeScope p1 p0 then
        .ok { platform := p0, scope := some p1, resource_type := p2, type := p3,
              instance_id := p4, version := p5, hash := hashValue }
      else if looksLikeVersion p5 then
        .ok { platform := p0, resource_type := p1, type := p2, instance_id := p3,
              version := p4, tag := some p5, hash := hashValue }
      else
        .ok { platform := p0, resource_type := p1, type := p2, subtype := some p3,
              instance_id := p4, version := p5, hash := hashValue }
  | [p0, p1, p2, p3, p4, p5, p6] =>
      if looksLikeScope p1 p0 then
        .ok { platform := p0, scope := some p1, resource_type := p2, type := p3,
              subtype := some p4, instance_id := p5, version := p6, hash := hashValue }
      else if looksLikeVersion p6 then
        .ok { platform := p0, resource_type := p1, type := p2, subtype := some p3,
              instance_id := p4, version := p5, tag := some p6, hash := hashValue }
      else
        .error (.formatError "Ambiguous TRN format with 7 components")
  | [p0, p1, p2, p3, p4, p5, p6, p7] =>
      .ok { platform := p0, scope := some p1, resource_type := p2, type := p3,
            subtype := some p4, instance_id := p5, version := p6, tag := some p7,
            hash := hashValue }
  | _ =>
      if parts.length > 8 then .error (.formatError "Too many components (maximum 8)")
      else .error (.formatError "unreachable for fewer than 5 parts")

/-- `str.rsplit("@", 1)`: split at the last `@` (the main part keeps
any earlier `@`). -/
def rsplitAtLastAt (l : List Char) : List Char × Option (List Char) :=
  if '@' ∈ l then
    let r := l.reverse
    (((r.dropWhile (· ≠ '@')).tail).reverse, some ((r.takeWhile (· ≠ '@')).reverse))
  else (l, none)

/-- `TRNParser._recovery_parse`: split off the hash after the last `@`,
split the rest on colons, require the `trn` prefix and at least 6
pieces, then map positionally.  Errors raised inside the mapping are
re-wrapped as format errors (`except Exception` in the source). -/
def recoveryParse (s : String) : Except Err Components :=
  let (mainPart, hashValue) := rsplitAtLastAt s.data
  let parts := (mainPart.splitOn ':').map fun l => (⟨l⟩ : String)
  if parts.length < 6 then
    .error (.formatError "TRN requires at least 6 components")
  else if parts.headD "" ≠ "trn" then
    .error (.formatError "TRN must start with trn:")
  else
    match mapRecoveryComponents parts.tail (hashValue.map fun l => (⟨l⟩ : String)) with
    | .ok c => .ok c
    | .error e => .error (.formatError ("Failed to parse TRN components: " ++ errStr e))

/-- `TRNParser.parse_components`: prefix check, regex first, then
recovery parsing. -/
def parseComponents (s : String) : Except Err Components :=
  if ¬ ("trn:".data.isPrefixOf s.data) then
    .error (.formatError "TRN must start with trn:")
  else
    match matchTRN s with
    | some c => .ok c
    | none => recoveryParse s

/-! ### `TRNValidator` (`validator.py`) -/

/-- `str.lower` (ASCII model). -/
def pyLower (s : String) : String := ⟨s.data.map pyLowerChar⟩

/-- `TRNValidator._check_reserved_words`: reject reserved words
(case-insensitively) and values starting with the system-reserved
double-underscore sentinel. -/
def checkReservedWords (value : String) (component : String) : Except Err Unit :=
  if reservedWords.contains (pyLower value) then
    .error (.reservedWordError (value ++ " is a reserved word") value component)
  else if "__".data.isPrefixOf value.data then
    .error (.reservedWordError "names starting with the reserved sentinel" value component)
  else .ok ()

/-- `TRNValidator._validate_platform`. -/
def validatePlatform (platform : String) (strict : Bool) : Except Err Unit := do
  if strict && !supportedPlatforms.contains platform then
    throw (.validationError ("Unsupported platform " ++ platform) "supported_platforms")
  checkReservedWords platform "platform"

/-- `TRNValidator._validate_scope`. -/
def validateScope (scope : String) (_strict : Bool) : Except Err Unit :=
  checkReservedWords scope "scope"

/-- `TRNValidator._validate_resource_type`. -/
def validateResourceType (resourceType : String) (strict : Bool) : Except Err Unit := do
  if strict && !supportedResourceTypes.contains resourceType then
    throw (.validationError ("Unsupported resource type " ++ resourceType) "supported_resource_types")
  checkReservedWords resourceType "resource_type"

/-- `TRNValidator._validate_type` (the strict branch is a `pass`). -/
def validateType (typeValue : String) (_strict : Bool) : Except Err Unit :=
  checkReservedWords typeValue "type"

/-- The literal guard set of known subtype keywords that
`_validate_subtype` re-checks before raising. -/
def guardSubtypes : List String := ["async", "sync", "streaming", "batch", "realtime"]

/-- `TRNValidator._validate_subtype`, with its nested conditionals kept
exactly: strict and unsupported, then membership in the literal keyword
set, then unsupported again before raising. -/
def validateSubtype (subtype : String) (strict : Bool) : Except Err Unit :=
  if strict && !supportedToolSubtypes.contains subtype then
    if guardSubtypes.contains subtype then
      if !supportedToolSubtypes.contains subtype then
        .error (.validationError ("Unsupported subtype " ++ subtype) "supported_subtypes")
      else checkReservedWords subtype "subtype"
    else checkReservedWords subtype "subtype"
  else checkReservedWords subtype "subtype"

/-- Python substring containment `needle in hay`. -/
def hasSub (needle : List Char) : List Char → Bool
  | [] => needle.isEmpty
  | c :: rest => needle.isPrefixOf (c :: rest) || hasSub needle rest

/-- `TRNValidator._validate_instance_id`: forbidden path-like
substrings checked in source order, then reserved words. -/
def validateInstanceId (instanceId : String) (_strict : Bool) : Except Err Unit :=
  if hasSub "../".data instanceId.data then
    .error (.characterError "Instance ID cannot contain path traversal" "../")
  else if hasSub "./".data instanceId.data then
    .error (.characterError "Instance ID cannot contain path traversal" "./")
  else if hasSub "\\".data instanceId.data then
    .error (.characterError "Instance ID cannot contain backslash" "\\")
  else if hasSub "/".data instanceId.data then
    .error (.characterError "Instance ID cannot contain slash" "/")
  else checkReservedWords instanceId "instance_id"

/-- `TRNValidator._validate_version`: in strict mode the version must
match one of the four version patterns (the `.*$` suffixes in the
validator's patterns make them the same prefix matches as the parser
heuristic); then reserved words. -/
def validateVersion (version : String) (strict : Bool) : Except Err Unit := do
  if strict then
    if !(vpatSemver version.data || vpatMajorMinor version.data || vpatMajor version.data
          || vpatAlias version.data) then
      throw (.validationError ("Version does not match expected format " ++ version) "version_format")
  checkReservedWords version "version"

/-- `TRNValidator._validate_tag`. -/
def validateTag (tag : String) (_strict : Bool) : Except Err Unit :=
  checkReservedWords tag "tag"

/-- HASH_FORMAT_REGEX `^(md5|sha1|sha256|sha512|crc32):[a-f0-9]+$`. -/
def hashFormatOk (h : String) : Bool :=
  hashAlgorithms.any fun alg =>
    (alg ++ ":").data.isPrefixOf h.data &&
      (let rest := h.data.drop (alg.length + 1)
       !rest.isEmpty && rest.all isHexLower)

/-- `TRNValidator._validate_hash`. -/
def validateHash (hashValue : String) (strict : Bool) : Except Err Unit :=
  if strict && !hashFormatOk hashValue then
    .error (.validationError ("Hash does not match format algorithm:hexvalue " ++ hashValue) "hash_format")
  else .ok ()

/-- `TRNValidator._validate_required_components` (Python falsiness:
`None` or the empty string both count as missing). -/
def validateRequiredComponents (c : Components) : Except Err Unit := do
  if c.platform = "" then throw (.componentError "Platform is required but missing" "platform")
  if c.resource_type = "" then throw (.componentError "Resource Type is required but missing" "resource_type")
  if c.type = "" then throw (.componentError "Type is required but missing" "type")
  if c.instance_id = "" then throw (.componentError "Instance ID is required but missing" "instance_id")
  if c.version = "" then throw (.componentError "Version is required but missing" "version")

/-- The per-component maximum-length check of
`_validate_individual_components`. -/
def lenCheck (name : String) (value : String) (maxLen : Nat) : Except Err Unit :=
  if value.length > maxLen then
    .error (.lengthError (name ++ " too long") value.length maxLen)
  else .ok ()

/-- Run a check on an optional component only when it is not `None`
(`if value is not None` — the empty string is still checked). -/
def onPresent (o : Option String) (f : String → Except Err Unit) : Except Err Unit :=
  match o with
  | none => .ok ()
  | some v => f v

/-- `TRNValidator._validate_individual_components`: for each component
present, the length bound and then the component validator, in the
insertion order of the `validators` dictionary. -/
def validateIndividualComponents (c : Components) (strict : Bool) : Except Err Unit := do
  lenCheck "Platform" c.platform 32
  validatePlatform c.platform strict
  onPresent c.scope fun v => do lenCheck "Scope" v 32; validateScope v strict
  lenCheck "Resource Type" c.resource_type 16
  validateResourceType c.resource_type strict
  lenCheck "Type" c.type 32
  validateType c.type strict
  onPresent c.subtype fun v => do lenCheck "Subtype" v 32; validateSubtype v strict
  lenCheck "Instance ID" c.instance_id 64
  validateInstanceId c.instance_id strict
  lenCheck "Version" c.version 32
  validateVersion c.version strict
  onPresent c.tag fun v => do lenCheck "Tag" v 16; validateTag v strict
  onPresent c.hash fun v => do lenCheck "Hash" v 71; validateHash v strict

/-- `TRNValidator._validate_business_rules` (strict mode only;
`components["scope"]` truthiness is `isPresent`). -/
def validateBusinessRules (c : Components) : Except Err Unit := do
  if c.platform = "user" && isPresent c.scope then
    if (c.scope.getD "").length < 2 then
      throw (.validationError "User scope must be at least 2 characters long" "user_scope_length")
  if c.platform = "org" && !isPresent c.scope then
    throw (.validationError "Organization platform requires a scope" "org_scope_required")
  if c.platform = "aiplatform" && isPresent c.scope then
    throw (.validationError "System platform aiplatform should not have scope" "system_no_scope")

/-- `TRNValidator._validate_components_dict`. -/
def validateComponentsDict (c : Components) (strict : Bool) : Except Err Unit := do
  validateRequiredComponents c
  validateIndividualComponents c strict
  if strict then validateBusinessRules c

/-- `TRNValidator._validate_basic_format`: emptiness, overall length
bounds, the `trn:` prefix, and the full-grammar regex. -/
def validateBasicFormat (s : String) : Except Err Unit := do
  if s = "" then throw (.formatError "TRN string cannot be empty")
  if s.length < 10 then throw (.lengthError "TRN too short" s.length 10)
  if s.length > 256 then throw (.lengthError "TRN too long" s.length 256)
  if ¬ ("trn:".data.isPrefixOf s.data) then throw (.formatError "TRN must start with trn:")
  if (matchTRN s).isNone then throw (.formatError "TRN format does not match required pattern")

/-- The body of `TRNValidator.validate` without the cache: basic format,
regex group extraction (`_parse_components`), then the component
checks. -/
def validateCore (s : String) (strict : Bool) : Except Err Unit := do
  validateBasicFormat s
  match matchTRN s with
  | none => throw (.formatError "Failed to parse TRN components")
  | some c => validateComponentsDict c strict

/-! ### The validation-result cache (`TRNValidator._validation_cache`)

The class-level dictionary and its size counter become an explicit
state value.  Python dictionaries preserve insertion order, so the
entries are an insertion-ordered association list; `_cache_result`
increments the counter even when it overwrites an existing key, exactly
as the source does. -/

structure VCache where
  entries : List (String × Bool) := []
  size : Nat := 0
deriving Repr, DecidableEq

/-- Dictionary lookup. -/
def lookupCache (cache : VCache) (key : String) : Option Bool :=
  (cache.entries.find? fun e => e.1 = key).map (·.2)

/-- Dictionary assignment `d[key] = b` (overwrite keeps the position;
a new key is appended). -/
def insertEntry : List (String × Bool) → String → Bool → List (String × Bool)
  | [], k, b => [(k, b)]
  | (k', b') :: rest, k, b =>
      if k' = k then (k', b) :: rest else (k', b') :: insertEntry rest k b

/-- `TRNValidator._cache_result`: when the size counter has reached the
capacity, drop the oldest `size // 2` entries, (reset the counter to
the number of remaining entries,) then store the result and increment
the counter. -/
def cacheResult (cache : VCache) (key : String) (result : Bool) : VCache :=
  if cacheValidationResults then
    let cache :=
      if cache.size ≥ maxCacheSize then
        let remaining := cache.entries.drop (cache.size / 2)
        { entries := remaining, size := remaining.length }
      else cache
    { entries := insertEntry cache.entries key result, size := cache.size + 1 }
  else cache

/-- The cache key `f"{trn_string}:{strict}"`. -/
def cacheKey (s : String) (strict : Bool) : String :=
  s ++ ":" ++ (if strict then "True" else "False")

/-- `TRNValidator.validate`: consult the cache first — a cached entry is
returned as a boolean (even a cached `False`, with no exception) — then
run the checks, cache the outcome, and either return `True` or re-raise. -/
def validateWithCache (cache : VCache) (s : String) (strict : Bool) :
    Except Err Bool × VCache :=
  if cacheValidationResults && (lookupCache cache (cacheKey s strict)).isSome then
    (.ok ((lookupCache cache (cacheKey s strict)).getD false), cache)
  else
    match validateCore s strict with
    | .ok _ => (.ok true, cacheResult cache (cacheKey s strict) true)
    | .error e => (.error e, cacheResult cache (cacheKey s strict) false)

/-- `TRNValidator.get_validation_errors`: call `validate`, catch
`TRNValidationError` (message as is) or any other exception (message
prefixed), and return the list of messages — empty when no exception
escaped. -/
def getValidationErrors (cache : VCache) (s : String) (strict : Bool) :
    List String × VCache :=
  match validateWithCache cache s strict with
  | (.ok _, cache') => ([], cache')
  | (.error e, cache') =>
      (if isValidationErr e then [errStr e] else ["Validation error: " ++ errStr e], cache')

/-! ### TRN construction and parsing (`core.py`, `parser.py`) -/

/-- The reserved-word sweep of `__post_init__`
(`for field_name, value in self.__dict__.items(): if value and
value.lower() in RESERVED_WORDS: raise`), over the field values in
declaration order. -/
def postInitReserved : List String → Except Err Unit
  | [] => .ok ()
  | v :: rest =>
      if v ≠ "" && reservedWords.contains (pyLower v) then
        .error (.validationError (v ++ " is a reserved word") "reserved_words")
      else postInitReserved rest

/-- `TRNComponents.__post_init__`: required fields, the closed platform
and resource-type sets, and the reserved-word sweep over all fields in
declaration order — these run on every construction, whatever the
`validate` flag. -/
def postInit (c : Components) : Except Err Unit :=
  if c.platform = "" then .error (.componentError "Platform is required" "platform")
  else if c.resource_type = "" then .error (.componentError "Resource type is required" "resource_type")
  else if c.type = "" then .error (.componentError "Type is required" "type")
  else if c.instance_id = "" then .error (.componentError "Instance ID is required" "instance_id")
  else if c.version = "" then .error (.componentError "Version is required" "version")
  else if !supportedPlatforms.contains c.platform then
    .error (.validationError ("Unsupported platform " ++ c.platform) "supported_platforms")
  else if !supportedResourceTypes.contains c.resource_type then
    .error (.validationError ("Unsupported resource type " ++ c.resource_type) "supported_resource_types")
  else
    postInitReserved [c.platform, c.resource_type, c.type, c.instance_id, c.version,
      c.scope.getD "", c.subtype.getD "", c.tag.getD "", c.hash.getD ""]

/-- `TRN.__init__`: build the component set (running `__post_init__`),
then validate with the configured strictness when requested
(`validate` defaulting to `validate_on_create`). -/
def mkTRN (c : Components) (validate : Option Bool) : Except Err Components :=
  match postInit c with
  | .error e => .error e
  | .ok _ =>
      if validate.getD validateOnCreate then
        match validateComponentsDict c strictValidationDefault with
        | .error e => .error e
        | .ok _ => .ok c
      else .ok c

/-- `TRNParser.parse`: emptiness check, optional normalization
(defaulting to `normalize_on_parse`), component parsing, and TRN
construction with the given `validate` flag. -/
def parseTRN (s : String) (validate : Bool := true) (normalize : Option Bool := none) :
    Except Err Components :=
  if s = "" then .error (.formatError "TRN string cannot be empty")
  else
    match parseComponents (if normalize.getD normalizeOnParse then normalizeString s else s) with
    | .error e => .error e
    | .ok c => mkTRN c (some validate)

/-! ### Base-TRN extraction (`parser.py`, `core.py`, `utils.py`) -/

/-- The parts `trn:platform[:scope]:resource_type:type[:subtype]:instance_id`
that `TRNParser.extract_base_trn` joins (optional parts when truthy). -/
def baseParts (c : Components) : List (List Char) :=
  ["trn".data, c.platform.data]
    ++ (match c.scope with | some s => if s = "" then [] else [s.data] | none => [])
    ++ [c.resource_type.data, c.type.data]
    ++ (match c.subtype with | some s => if s = "" then [] else [s.data] | none => [])
    ++ [c.instance_id.data]

/-- The base TRN string of a component set: the canonical string
truncated to the platform..instance_id prefix, omitting version, tag
and hash. -/
def baseOfComponents (c : Components) : String :=
  ⟨List.intercalate [':'] (baseParts c)⟩

/-- `TRNParser._extract_base_trn_fallback`. -/
def extractBaseTrnFallback (s : String) : String :=
  let l := if '@' ∈ s.data then s.data.takeWhile (· ≠ '@') else s.data
  let parts := (l.splitOn ':').map fun seg => (⟨seg⟩ : String)
  let parts :=
    if 6 ≤ parts.length then
      if 7 ≤ parts.length && !looksLikeVersion (parts.getD (parts.length - 2) "") then
        parts.dropLast.dropLast
      else parts.dropLast
    else parts
  ⟨List.intercalate [':'] (parts.map String.data)⟩

/-- `TRNParser.extract_base_trn` (string input): parse the components
and rebuild the truncated prefix; on any parse failure fall back to the
positional heuristic. -/
def extractBaseTrn (s : String) : String :=
  match parseComponents s with
  | .ok c => baseOfComponents c
  | .error _ => extractBaseTrnFallback s

/-- `TRN.get_base_trn`: a new TRN with the version replaced by the
wildcard `"*"` and tag/hash dropped (constructed with
`validate=False`, so `__post_init__` still runs). -/
def getBaseTrn (c : Components) : Components :=
  { c with version := "*", tag := none, hash := none }

/-- `utils.extract_base_trn` on a TRN object:
`str(trn_input.get_base_trn())`. -/
def utilsExtractBaseOfObject (c : Components) : Except Err String := do
  let b ← mkTRN (getBaseTrn c) (some false)
  return buildString b

/-! ### URL codec (`url_converter.py`)

Only the `trn://` dialect is embedded (the generic HTTP dialect shares
all of its machinery).  `urllib.parse` helpers are modelled on their
ASCII behaviour, which is exact for every string the codec can produce
from a component set. -/

/-- URL_ENCODING_MAP, in dictionary insertion order. -/
def urlEncodingMap : List (Char × List Char) :=
  [(':', ['%', '3', 'A']), ('/', ['%', '2', 'F']), ('.', ['%', '2', 'E']),
   ('@', ['%', '4', '0']), ('#', ['%', '2', '3']), ('?', ['%', '3', 'F']),
   ('&', ['%', '2', '6']), ('=', ['%', '3', 'D']), ('+', ['%', '2', 'B']),
   (' ', ['%', '2', '0'])]

/-- `str.replace` with a single-character target. -/
def pyReplaceChar (l : List Char) (target : Char) (repl : List Char) : List Char :=
  l.flatMap fun c => if c = target then repl else [c]

/-- `TRNURLConverter._encode_component`: apply the replacements of
URL_ENCODING_MAP one after the other. -/
def encodeComponent (s : String) : String :=
  if s = "" then s
  else ⟨urlEncodingMap.foldl (fun acc p => pyReplaceChar acc p.1 p.2) s.data⟩

/-- Numeric value of one hex digit, if any. -/
def hexVal (c : Char) : Option Nat :=
  if 48 ≤ c.toNat && c.toNat ≤ 57 then some (c.toNat - 48)
  else if 65 ≤ c.toNat && c.toNat ≤ 70 then some (c.toNat - 55)
  else if 97 ≤ c.toNat && c.toNat ≤ 102 then some (c.toNat - 87)
  else none

/-- Percent-decoding (`urllib.parse.unquote`, ASCII model): decode
every valid `%XY` escape, leave malformed escapes untouched. -/
def percentDecode : List Char → List Char
  | [] => []
  | c :: rest =>
      if c = '%' then
        match rest with
        | a :: b :: rest2 =>
            match hexVal a, hexVal b with
            | some x, some y => Char.ofNat (16 * x + y) :: percentDecode rest2
            | _, _ => '%' :: percentDecode (a :: b :: rest2)
        | [] => c :: percentDecode []
        | [a] => c :: percentDecode [a]
      else c :: percentDecode rest
termination_by l => l.length
decreasing_by
  all_goals simp
  all_goals omega

/-- `TRNURLConverter._decode_component` = `urllib.parse.unquote`. -/
def decodeComponent (s : String) : String :=
  if s = "" then s else ⟨percentDecode s.data⟩

/-- `urllib.parse.unquote_plus`: `+` becomes a space, then
percent-decoding. -/
def pyUnquotePlus (l : List Char) : List Char :=
  percentDecode (l.map fun c => if c = '+' then ' ' else c)

/-- The characters `urllib.parse.quote` leaves unescaped
(alphanumerics, `_.-~` and the default safe character `/`). -/
def isQuoteSafe (c : Char) : Bool :=
  isLowerAlpha c || isDigitCh c || (65 ≤ c.toNat && c.toNat ≤ 90) ||
    c = '_' || c = '.' || c = '-' || c = '~' || c = '/'

/-- Upper-case hex digit of a value below 16. -/
def hexDigitUpper (n : Nat) : Char :=
  if n < 10 then Char.ofNat (48 + n) else Char.ofNat (55 + n)

/-- `urllib.parse.quote` (ASCII model). -/
def pyQuote (l : List Char) : List Char :=
  l.flatMap fun c =>
    if isQuoteSafe c then [c]
    else ['%', hexDigitUpper (c.toNat / 16), hexDigitUpper (c.toNat % 16)]

/-- `TRNURLConverter._to_trn_url`: `trn://` + path segments (scope,
subtype, tag only when truthy; platform, resource type and type left
unencoded) + the hash as a quoted query parameter. -/
def toTrnUrl (c : Components) : String :=
  ⟨"trn://".data ++ c.platform.data
    ++ (match c.scope with
        | some s => if s = "" then [] else '/' :: (encodeComponent s).data
        | none => [])
    ++ '/' :: c.resource_type.data ++ '/' :: c.type.data
    ++ (match c.subtype with
        | some s => if s = "" then [] else '/' :: (encodeComponent s).data
        | none => [])
    ++ '/' :: (encodeComponent c.instance_id).data
    ++ '/' :: (encodeComponent c.version).data
    ++ (match c.tag with
        | some s => if s = "" then [] else '/' :: (encodeComponent s).data
        | none => [])
    ++ (match c.hash with
        | some h => if h = "" then [] else "?hash=".data ++ pyQuote h.data
        | none => [])⟩

/-- `urllib.parse.parse_qs` lookup of the first `hash` value: pairs are
split on `&`, a pair without `=` or with a blank value is skipped, keys
and values are unquoted (plus-aware). -/
def findHashParam : List (List Char) → Option (List Char)
  | [] => none
  | pair :: rest =>
      if '=' ∈ pair then
        if pyUnquotePlus (pair.takeWhile (· ≠ '=')) = "hash".data ∧
            (pair.dropWhile (· ≠ '=')).tail ≠ [] then
          some (pyUnquotePlus ((pair.dropWhile (· ≠ '=')).tail))
        else findHashParam rest
      else findHashParam rest

/-- `TRNURLConverter._map_url_components`: the count-driven positional
mapping of decoded `trn://` path segments, sharing the parser's
scope/version shape heuristics. -/
def mapUrlComponents (parts : List String) (hashValue : Option String) :
    Except Err Components :=
  match parts with
  | [p0, p1, p2, p3, p4] =>
      .ok { platform := p0, resource_type := p1, type := p2,
            instance_id := p3, version := p4, hash := hashValue }
  | [p0, p1, p2, p3, p4, p5] =>
      if looksLikeScope p1 p0 then
        .ok { platform := p0, scope := some p1, resource_type := p2, type := p3,
              instance_id := p4, version := p5, hash := hashValue }
      else if looksLikeVersion p4 then
        .ok { platform := p0, resource_type := p1, type := p2, instance_id := p3,
              version := p4, tag := some p5, hash := hashValue }
      else
        .ok { platform := p0, resource_type := p1, type := p2, subtype := some p3,
              instance_id := p4, version := p5, hash := hashValue }
  | [p0, p1, p2, p3, p4, p5, p6] =>
      if looksLikeScope p1 p0 then
        if looksLikeVersion p5 then
          .ok { platform := p0, scope := some p1, resource_type := p2, type := p3,
                instance_id := p4, version := p5, tag := some p6, hash := hashValue }
        else
          .ok { platform := p0, scope := some p1, resource_type := p2, type := p3,
                subtype := some p4, instance_id := p5, version := p6, hash := hashValue }
      else
        .ok { platform := p0, resource_type := p1, type := p2, subtype := some p3,
              instance_id := p4, version := p5, tag := some p6, hash := hashValue }
  | [p0, p1, p2, p3, p4, p5, p6, p7] =>
      .ok { platform := p0, scope := some p1, resource_type := p2, type := p3,
            subtype := some p4, instance_id := p5, version := p6, tag := some p7,
            hash := hashValue }
  | _ => .error (.formatError "Too many URL path components (maximum 8)")

/-- `urlparse` on a `trn://` URL, as `_from_trn_url` consumes it:
`netloc + path` is everything after `trn://`, up to the first `?` or
`#`. -/
def urlPathPart (url : String) : List Char :=
  ((url.data.drop 6).takeWhile (· ≠ '#')).takeWhile (· ≠ '?')

/-- `urlparse(url).query`: the text between the first `?` and the
fragment (or the end). -/
def urlQueryPart (url : String) : List Char :=
  (((url.data.drop 6).takeWhile (· ≠ '#')).dropWhile (· ≠ '?')).tail

/-- The `hash` query parameter, looked up when the query string is
non-empty. -/
def urlHashValue (url : String) : Option String :=
  if urlQueryPart url ≠ [] then
    (findHashParam ((urlQueryPart url).splitOn '&')).map fun l => (⟨l⟩ : String)
  else none

/-- `if path.startswith("/"): path = path[1:]` -/
def stripLeadSlash (p : List Char) : List Char :=
  if p.headD ' ' = '/' then p.tail else p

/-- `if path.endswith("/"): path = path[:-1]` -/
def stripTrailSlash (p : List Char) : List Char :=
  if p.getLastD ' ' = '/' then p.dropLast else p

/-- The decoded path segments:
`[unquote(part) for part in path.split("/") if part]`. -/
def urlSegments (url : String) : List String :=
  (((stripTrailSlash (stripLeadSlash (urlPathPart url))).splitOn '/').filter
      (· ≠ [])).map fun seg => decodeComponent ⟨seg⟩

/-- `TRNURLConverter._from_trn_url` (with the `from_url` scheme
dispatch): split off fragment and query as `urlparse` does, extract the
`hash` query parameter, strip the edge slashes of the path, split on
`/` keeping non-empty raw segments, decode each, require at least five,
map by count, and construct the TRN with the given `validate` flag. -/
def fromTrnUrl (url : String) (validate : Bool := true) : Except Err Components :=
  if ¬ ("trn://".data.isPrefixOf url.data) then
    .error (.formatError ("Unsupported URL format: " ++ url))
  else if (urlSegments url).length < 5 then
    .error (.formatError "TRN URL requires at least 5 path components")
  else
    match mapUrlComponents (urlSegments url) (urlHashValue url) with
    | .error e => .error e
    | .ok c => mkTRN c (some validate)

/-! ### Version comparison (`utils.py`) -/

/-- Value of a non-empty digit run. -/
def natOfDigits (ds : List Char) : Nat :=
  ds.foldl (fun n c => 10 * n + (c.toNat - 48)) 0

/-- `_parse_version`: strip a leading `v`, split on dots, parse each
dot-segment's leading digit run (no digits → 0), right-pad with zeros
to at least three entries. -/
def parseVersionTuple (version : String) : List Nat :=
  let l := match version.data with | 'v' :: t => t | l => l
  let parts := (l.splitOn '.').map fun part =>
    let ds := part.takeWhile isDigitCh
    if ds.isEmpty then 0 else natOfDigits ds
  parts ++ List.replicate (3 - parts.length) 0

/-- Python tuple comparison: lexicographic, a strict prefix is
smaller. -/
def cmpNatList : List Nat → List Nat → Ordering
  | [], [] => .eq
  | [], _ :: _ => .lt
  | _ :: _, [] => .gt
  | a :: as, b :: bs =>
      if a < b then .lt else if b < a then .gt else cmpNatList as bs

/-- `alias_order` in `_compare_alias_versions`. -/
def aliasOrder : List (String × Nat) :=
  [("dev", 0), ("alpha", 1), ("beta", 2), ("rc", 3), ("stable", 4), ("latest", 5), ("lts", 4)]

def aliasOrderLookup (s : String) : Option Nat :=
  (aliasOrder.find? fun e => e.1 = s).map (·.2)

/-- The fall-through last line of `_compare_alias_versions`:
`operator == "!=" if operator in ["==", "!="] else False`. -/
def finalAliasLine (op : String) : Bool :=
  if op = "==" || op = "!=" then op == "!=" else false

/-- `_compare_alias_versions`: when both sides have an order entry the
six equality/order operators compare the entries (any other operator
falls through); otherwise the fall-through line answers. -/
def compareAliasVersions (v1 v2 op : String) : Bool :=
  match aliasOrderLookup v1, aliasOrderLookup v2 with
  | some o1, some o2 =>
      if op = "==" then o1 == o2
      else if op = "!=" then o1 != o2
      else if op = ">" then decide (o2 < o1)
      else if op = ">=" then decide (o2 ≤ o1)
      else if op = "<" then decide (o1 < o2)
      else if op = "<=" then decide (o1 ≤ o2)
      else finalAliasLine op
  | _, _ => finalAliasLine op

/-- `compare_trn_versions`: operator check (`ValueError` on an unknown
operator), alias dispatch when either side is in COMMON_ALIASES,
otherwise semantic-tuple comparison (`~` compares major.minor only,
`^` requires equal major and `a ≥ b`). -/
def compareTrnVersions (version1 version2 : String) (op : String := "==") :
    Except String Bool :=
  if ¬ versionOperators.contains op then .error ("Invalid operator: " ++ op)
  else if commonAliases.contains version1 || commonAliases.contains version2 then
    .ok (compareAliasVersions version1 version2 op)
  else
    let t1 := parseVersionTuple version1
    let t2 := parseVersionTuple version2
    .ok (if op = "==" then t1 == t2
      else if op = "!=" then t1 != t2
      else if op = ">" then cmpNatList t1 t2 == .gt
      else if op = ">=" then cmpNatList t1 t2 != .lt
      else if op = "<" then cmpNatList t1 t2 == .lt
      else if op = "<=" then cmpNatList t1 t2 != .gt
      else if op = "~" then t1.take 2 == t2.take 2
      else if op = "^" then t1.headD 0 == t2.headD 0 && cmpNatList t1 t2 != .lt
      else false)

/-! ### Batch validation (`utils.batch_validate_trns`) -/

structure BatchResult where
  totalCount : Nat
  validCount : Nat
  invalidCount : Nat
  validTrns : List String
  invalidTrns : List String
  errors : List String
  successRate : ℚ
deriving Repr, DecidableEq

/-- The for-loop of `batch_validate_trns`: validate each string through
the shared validator (threading the class-level cache), sorting it into
the valid bucket when `validate` returns (whatever boolean) and into
the invalid bucket when it raises. -/
def batchLoop (strict : Bool) : VCache → List String →
    List String × List String × List String × VCache
  | cache, [] => ([], [], [], cache)
  | cache, trn :: rest =>
      match validateWithCache cache trn strict with
      | (.ok _, cache') =>
          let (v, i, e, cache'') := batchLoop strict cache' rest
          (trn :: v, i, e, cache'')
      | (.error err, cache') =>
          let (v, i, e, cache'') := batchLoop strict cache' rest
          (v, trn :: i, errStr err :: e, cache'')

/-- `batch_validate_trns`: run the loop and report the counts and the
success rate (`len(valid)/len(trn_list)` when the input list is
non-empty, `0.0` otherwise). -/
def batchValidateTrns (trnList : List String) (strict : Bool := true)
    (cache : VCache := {}) : BatchResult × VCache :=
  let (v, i, e, cache') := batchLoop strict cache trnList
  ({ totalCount := trnList.length, validCount := v.length, invalidCount := i.length,
     validTrns := v, invalidTrns := i, errors := e,
     successRate := if trnList ≠ [] then (v.length : ℚ) / (trnList.length : ℚ) else 0 },
   cache')

/-! ### Helper lemmas: character classes -/

/-- The union of the character classes of the non-hash groups. -/
def mainChar (c : Char) : Bool := isLowerDigit c || c = '-' || c = '.'

lemma lowerAlpha_main (c : Char) (h : isLowerAlpha c = true) : mainChar c = true := by
  simp [mainChar, isLowerDigit, h]

lemma lowerDigit_main (c : Char) (h : isLowerDigit c = true) : mainChar c = true := by
  simp [mainChar, h]

lemma ldh_main (c : Char) (h : isLDH c = true) : mainChar c = true := by
  simp [isLDH] at h
  rcases h with h | h
  · exact lowerDigit_main c h
  · simp [mainChar, h]

lemma versionChar_main (c : Char) (h : isVersionChar c = true) : mainChar c = true := by
  simp [isVersionChar] at h
  rcases h with (h | h) | h
  · exact lowerDigit_main c h
  · simp [mainChar, h]
  · simp [mainChar, h]

lemma mainChar_toNat (c : Char) (h : mainChar c = true) :
    (97 ≤ c.toNat ∧ c.toNat ≤ 122) ∨ (48 ≤ c.toNat ∧ c.toNat ≤ 57) ∨ c.toNat = 45 ∨
      c.toNat = 46 := by
  simp [mainChar, isLowerDigit, isLowerAlpha, isDigitCh] at h
  rcases h with ((h | h) | h) | h
  · exact .inl h
  · exact .inr (.inl h)
  · subst h; exact .inr (.inr (.inl rfl))
  · subst h; exact .inr (.inr (.inr rfl))

lemma mainChar_lower (c : Char) (h : mainChar c = true) : pyLowerChar c = c := by
  have := mainChar_toNat c h
  unfold pyLowerChar
  have : ¬ (65 ≤ c.toNat && c.toNat ≤ 90) = true := by
    simp only [Bool.and_eq_true, decide_eq_true_eq]
    omega
  simp [this]

lemma mainChar_not_space (c : Char) (h : mainChar c = true) : pyIsSpace c = false := by
  have := mainChar_toNat c h
  unfold pyIsSpace
  simp only [Bool.or_eq_false_iff, Bool.and_eq_false_iff, decide_eq_false_iff_not]
  omega

lemma mainChar_ne_colon (c : Char) (h : mainChar c = true) : c ≠ ':' := by
  intro hc; subst hc; simp [mainChar, isLowerDigit, isLowerAlpha, isDigitCh] at h

lemma mainChar_ne_at (c : Char) (h : mainChar c = true) : c ≠ '@' := by
  intro hc; subst hc; simp [mainChar, isLowerDigit, isLowerAlpha, isDigitCh] at h

lemma hashChar_toNat (c : Char) (h : isHashChar c = true) :
    (97 ≤ c.toNat ∧ c.toNat ≤ 122) ∨ (48 ≤ c.toNat ∧ c.toNat ≤ 57) ∨ c.toNat = 58 := by
  simp [isHashChar, isLowerDigit, isLowerAlpha, isDigitCh] at h
  rcases h with (h | h) | h
  · exact .inl h
  · exact .inr (.inl h)
  · subst h; exact .inr (.inr rfl)

lemma hashChar_lower (c : Char) (h : isHashChar c = true) : pyLowerChar c = c := by
  have := hashChar_toNat c h
  unfold pyLowerChar
  have : ¬ (65 ≤ c.toNat && c.toNat ≤ 90) = true := by
    simp only [Bool.and_eq_true, decide_eq_true_eq]
    omega
  simp [this]

lemma hashChar_not_space (c : Char) (h : isHashChar c = true) : pyIsSpace c = false := by
  have := hashChar_toNat c h
  unfold pyIsSpace
  simp only [Bool.or_eq_false_iff, Bool.and_eq_false_iff, decide_eq_false_iff_not]
  omega

lemma hashChar_ne_at (c : Char) (h : isHashChar c = true) : c ≠ '@' := by
  intro hc; subst hc; simp [isHashChar, isLowerDigit, isLowerAlpha, isDigitCh] at h

/-- Non-emptiness and character membership for each segment class. -/
lemma platformOk_props (p : List Char) (h : platformOk p = true) :
    p ≠ [] ∧ ∀ ch ∈ p, mainChar ch = true := by
  cases p with
  | nil => simp [platformOk] at h
  | cons c rest =>
    simp only [platformOk, Bool.and_eq_true, List.all_eq_true] at h
    refine ⟨by simp, ?_⟩
    intro ch hch
    rcases List.mem_cons.mp hch with rfl | hm
    · exact lowerAlpha_main ch h.1.1.1
    · exact ldh_main ch (h.1.1.2 ch hm)

lemma scopeOk_props (p : List Char) (h : scopeOk p = true) :
    p ≠ [] ∧ ∀ ch ∈ p, mainChar ch = true := by
  cases p with
  | nil => simp [scopeOk] at h
  | cons c rest =>
    simp only [scopeOk, Bool.and_eq_true, List.all_eq_true] at h
    refine ⟨by simp, ?_⟩
    intro ch hch
    rcases List.mem_cons.mp hch with rfl | hm
    · exact lowerDigit_main ch h.1.1
    · exact ldh_main ch (h.1.2 ch hm)

lemma rtypeOk_props (p : List Char) (h : rtypeOk p = true) :
    p ≠ [] ∧ ∀ ch ∈ p, mainChar ch = true := by
  cases p with
  | nil => simp [rtypeOk] at h
  | cons c rest =>
    simp only [rtypeOk, Bool.and_eq_true, List.all_eq_true] at h
    refine ⟨by simp, ?_⟩
    intro ch hch
    rcases List.mem_cons.mp hch with rfl | hm
    · exact lowerAlpha_main ch h.1.1.1
    · exact ldh_main ch (h.1.1.2 ch hm)

lemma typeOk_props (p : List Char) (h : typeOk p = true) :
    p ≠ [] ∧ ∀ ch ∈ p, mainChar ch = true := by
  cases p with
  | nil => simp [typeOk] at h
  | cons c rest =>
    simp only [typeOk, Bool.and_eq_true, List.all_eq_true] at h
    refine ⟨by simp, ?_⟩
    intro ch hch
    rcases List.mem_cons.mp hch with rfl | hm
    · exact lowerAlpha_main ch h.1.1.1
    · exact ldh_main ch (h.1.1.2 ch hm)

lemma instOk_props (p : List Char) (h : instOk p = true) :
    p ≠ [] ∧ ∀ ch ∈ p, mainChar ch = true := by
  cases p with
  | nil => simp [instOk] at h
  | cons c rest =>
    simp only [instOk, Bool.and_eq_true, List.all_eq_true] at h
    refine ⟨by simp, ?_⟩
    intro ch hch
    rcases List.mem_cons.mp hch with rfl | hm
    · exact lowerDigit_main ch h.1.1
    · exact ldh_main ch (h.1.2 ch hm)

lemma versionOk_props (p : List Char) (h : versionOk p = true) :
    p ≠ [] ∧ ∀ ch ∈ p, mainChar ch = true := by
  cases p with
  | nil => simp [versionOk] at h
  | cons c rest =>
    simp only [versionOk, Bool.and_eq_true, List.all_eq_true] at h
    refine ⟨by simp, ?_⟩
    intro ch hch
    rcases List.mem_cons.mp hch with rfl | hm
    · exact lowerDigit_main ch h.1.1
    · exact versionChar_main ch (h.1.2 ch hm)

lemma tagOk_props (p : List Char) (h : tagOk p = true) :
    p ≠ [] ∧ ∀ ch ∈ p, mainChar ch = true := by
  cases p with
  | nil => simp [tagOk] at h
  | cons c rest =>
    simp only [tagOk, Bool.and_eq_true, List.all_eq_true] at h
    refine ⟨by simp, ?_⟩
    intro ch hch
    rcases List.mem_cons.mp hch with rfl | hm
    · exact lowerDigit_main ch h.1.1
    · exact ldh_main ch (h.1.2 ch hm)

lemma hashOk_props (p : List Char) (h : hashOk p = true) :
    p ≠ [] ∧ ∀ ch ∈ p, isHashChar ch = true := by
  simp only [hashOk, Bool.and_eq_true, List.all_eq_true] at h
  refine ⟨?_, h.1.1⟩
  intro hp
  subst hp
  simp at h

/-! ### Helper lemmas: joining, splitting, colon runs -/

lemma intercalate_cons_cons (sep a b : List Char) (t : List (List Char)) :
    List.intercalate sep (a :: b :: t) = a ++ sep ++ List.intercalate sep (b :: t) := by
  simp [List.intercalate]

lemma intercalate_single (sep a : List Char) : List.intercalate sep [a] = a := by
  simp [List.intercalate]

lemma mem_intercalate_colon (segs : List (List Char)) (ch : Char)
    (h : ch ∈ List.intercalate [':'] segs) : ch = ':' ∨ ∃ seg ∈ segs, ch ∈ seg := by
  induction segs with
  | nil => simp [List.intercalate] at h
  | cons a t ih =>
    cases t with
    | nil =>
      rw [intercalate_single] at h
      exact .inr ⟨a, by simp, h⟩
    | cons b t2 =>
      rw [intercalate_cons_cons] at h
      rcases List.mem_append.mp h with h1 | h2
      · rcases List.mem_append.mp h1 with h3 | h4
        · exact .inr ⟨a, by simp, h3⟩
        · exact .inl (by simpa using h4)
      · rcases ih h2 with h5 | ⟨seg, hseg, hm⟩
        · exact .inl h5
        · exact .inr ⟨seg, by simp [hseg], hm⟩

/-- No two consecutive colons (mirrors the recursion of
`collapseColons`). -/
def noDD : List Char → Bool
  | [] => true
  | [_] => true
  | c1 :: c2 :: rest => !(c1 = ':' && c2 = ':') && noDD (c2 :: rest)

lemma collapse_of_noDD : ∀ l : List Char, noDD l = true → collapseColons l = l
  | [], _ => rfl
  | [_], _ => rfl
  | c1 :: c2 :: rest, h => by
    unfold noDD at h
    simp only [Bool.and_eq_true, Bool.not_eq_true'] at h
    unfold collapseColons
    simp only [h.1, Bool.false_eq_true, if_false]
    rw [collapse_of_noDD (c2 :: rest) h.2]

lemma noDD_cons_of_ne (c : Char) (b : List Char) (hc : c ≠ ':') (hb : noDD b = true) :
    noDD (c :: b) = true := by
  cases b with
  | nil => rfl
  | cons d t =>
    unfold noDD
    simp [hc, hb]

lemma noDD_colon_cons (b : List Char) (hb : noDD b = true)
    (hhead : ∀ x ∈ b.head?, x ≠ ':') : noDD (':' :: b) = true := by
  cases b with
  | nil => rfl
  | cons d t =>
    unfold noDD
    have hd : d ≠ ':' := hhead d (by simp)
    simp [hd, hb]

lemma noDD_append_left : ∀ a b : List Char, (∀ c ∈ a, c ≠ ':') → noDD b = true →
    noDD (a ++ b) = true
  | [], _, _, hb => hb
  | [c], b, ha, hb => by
    simpa using noDD_cons_of_ne c b (ha c (by simp)) hb
  | c1 :: c2 :: rest, b, ha, hb => by
    have hrec := noDD_append_left (c2 :: rest) b (fun x hx => ha x (List.mem_cons_of_mem c1 hx)) hb
    have h1 : c1 ≠ ':' := ha c1 (by simp)
    simpa using noDD_cons_of_ne c1 ((c2 :: rest) ++ b) h1 hrec

lemma noDD_of_no_colon (a : List Char) (ha : ∀ c ∈ a, c ≠ ':') : noDD a = true := by
  simpa using noDD_append_left a [] ha rfl

lemma segs_glue (segs : List (List Char))
    (hsegs : ∀ seg ∈ segs, seg ≠ [] ∧ ∀ ch ∈ seg, ch ≠ ':') :
    noDD (List.intercalate [':'] segs) = true ∧
      ∀ x ∈ (List.intercalate [':'] segs).head?, x ≠ ':' := by
  induction segs with
  | nil => exact ⟨rfl, by simp [List.intercalate]⟩
  | cons a t ih =>
    obtain ⟨hane, hachars⟩ := hsegs a (by simp)
    cases t with
    | nil =>
      rw [intercalate_single]
      refine ⟨noDD_of_no_colon a hachars, ?_⟩
      intro x hx
      cases a with
      | nil => simp at hx
      | cons c r =>
        have hxc : x = c := by simpa [eq_comm] using hx
        subst hxc
        exact hachars x (by simp)
    | cons b t2 =>
      obtain ⟨ihDD, ihHead⟩ := ih (fun seg hseg => hsegs seg (by simp [hseg]))
      rw [intercalate_cons_cons]
      have hmid : noDD (':' :: List.intercalate [':'] (b :: t2)) = true :=
        noDD_colon_cons _ ihDD ihHead
      rw [List.append_assoc]
      refine ⟨noDD_append_left a _ hachars (by simpa using hmid), ?_⟩
      intro x hx
      cases a with
      | nil => exact absurd rfl hane
      | cons c r =>
        simp only [List.cons_append, List.head?_cons, Option.mem_def, Option.some.injEq] at hx
        subst hx
        exact hachars c (by simp)

/-- Mapping a pointwise-fixed function over a list is the identity. -/
lemma map_fixed (f : Char → Char) (l : List Char) (h : ∀ c ∈ l, f c = c) :
    l.map f = l := by
  induction l with
  | nil => rfl
  | cons c t ih =>
    simp only [List.map_cons, h c (by simp)]
    rw [ih fun x hx => h x (by simp [hx])]

lemma dropWhile_all_not (p : Char → Bool) (l : List Char) (h : ∀ c ∈ l, p c = false) :
    l.dropWhile p = l := by
  cases l with
  | nil => rfl
  | cons c t => simp [List.dropWhile_cons, h c (by simp)]

lemma pyStrip_all_not (l : List Char) (h : ∀ c ∈ l, pyIsSpace c = false) :
    pyStrip l = l := by
  unfold pyStrip
  rw [dropWhile_all_not _ _ h]
  rw [dropWhile_all_not _ _ (fun c hc => h c (List.mem_reverse.mp hc))]
  exact List.reverse_reverse l

/-! ### Inversion of the regex matcher -/

lemma hashSplit_some (rest main : List Char) (hopt : Option (List Char))
    (h : hashSplit rest = some (main, hopt)) :
    (hopt = none ∧ main = rest ∧ '@' ∉ rest) ∨
      ∃ hl, hopt = some hl ∧ rest = main ++ '@' :: hl ∧ '@' ∉ main ∧ '@' ∉ hl := by
  by_cases hmem : '@' ∈ rest
  · by_cases hmem2 : '@' ∈ (rest.dropWhile (· ≠ '@')).tail
    · unfold hashSplit at h
      rw [if_pos hmem, if_pos hmem2] at h
      exact absurd h (by simp)
    · unfold hashSplit at h
      rw [if_pos hmem, if_neg hmem2] at h
      simp only [Option.some.injEq, Prod.mk.injEq] at h
      obtain ⟨h1, h2⟩ := h
      right
      refine ⟨(rest.dropWhile (· ≠ '@')).tail, h2.symm, ?_, ?_, hmem2⟩
      · have hd : rest.dropWhile (· ≠ '@') ≠ [] := by
          intro hnil
          have hall := List.dropWhile_eq_nil_iff.mp hnil
          have := hall '@' hmem
          simp at this
        have hhead : (rest.dropWhile (· ≠ '@')).head hd = '@' := by
          have := List.head_dropWhile_not (fun x => decide (x ≠ '@')) rest hd
          simpa using this
        have hsplit := List.takeWhile_append_dropWhile (fun x => decide (x ≠ '@')) rest
        conv_lhs => rw [← hsplit]
        rw [← h1]
        congr 1
        conv_lhs => rw [← List.head_cons_tail _ hd]
        rw [hhead]
      · rw [← h1]
        intro hm
        have := List.mem_takeWhile_imp hm
        simp at this
  · unfold hashSplit at h
    rw [if_neg hmem] at h
    simp only [Option.some.injEq, Prod.mk.injEq] at h
    exact .inl ⟨h.2.symm, h.1.symm, hmem⟩

lemma segClasses_fixed (seg : List Char) (hm : ∀ ch ∈ seg, mainChar ch = true) :
    seg ≠ [] → ∀ ch ∈ seg, ch ≠ ':' :=
  fun _ ch hch => mainChar_ne_colon ch (hm ch hch)

@[simp] lemma data_mk (l : List Char) : (String.mk l).data = l := rfl

@[simp] lemma mk_eq_empty_iff (l : List Char) : (String.mk l = "") ↔ l = [] := by
  simp [String.ext_iff]

lemma assignSegs_some (segs : List (List Char)) (h : Option String) (c : Components)
    (hs : assignSegs segs h = some c) :
    c.hash = h ∧ buildParts c = "trn".data :: segs ∧
      ∀ seg ∈ segs, seg ≠ [] ∧ ∀ ch ∈ seg, mainChar ch = true := by
  unfold assignSegs at hs
  split at hs
  case _ p r t i v =>
    split_ifs at hs with hc
    simp only [Option.some.injEq] at hs
    subst hs
    simp only [Bool.and_eq_true] at hc
    obtain ⟨⟨⟨⟨h1, h2⟩, h3⟩, h4⟩, h5⟩ := hc
    refine ⟨rfl, by simp [buildParts], ?_⟩
    intro seg hseg
    simp only [List.mem_cons, List.not_mem_nil, or_false] at hseg
    rcases hseg with rfl | rfl | rfl | rfl | rfl
    · exact platformOk_props _ h1
    · exact rtypeOk_props _ h2
    · exact typeOk_props _ h3
    · exact instOk_props _ h4
    · exact versionOk_props _ h5
  case _ s1 s2 s3 s4 s5 s6 =>
    split_ifs at hs with hc1 hc2 hc3
    · simp only [Option.some.injEq] at hs
      subst hs
      simp only [Bool.and_eq_true] at hc1
      obtain ⟨⟨⟨⟨⟨h1, h2⟩, h3⟩, h4⟩, h5⟩, h6⟩ := hc1
      refine ⟨rfl, by simp [buildParts, (scopeOk_props _ h2).1], ?_⟩
      intro seg hseg
      simp only [List.mem_cons, List.not_mem_nil, or_false] at hseg
      rcases hseg with rfl | rfl | rfl | rfl | rfl | rfl
      · exact platformOk_props _ h1
      · exact scopeOk_props _ h2
      · exact rtypeOk_props _ h3
      · exact typeOk_props _ h4
      · exact instOk_props _ h5
      · exact versionOk_props _ h6
    · simp only [Option.some.injEq] at hs
      subst hs
      simp only [Bool.and_eq_true] at hc2
      obtain ⟨⟨⟨⟨⟨h1, h2⟩, h3⟩, h4⟩, h5⟩, h6⟩ := hc2
      refine ⟨rfl, by simp [buildParts, (typeOk_props _ h4).1], ?_⟩
      intro seg hseg
      simp only [List.mem_cons, List.not_mem_nil, or_false] at hseg
      rcases hseg with rfl | rfl | rfl | rfl | rfl | rfl
      · exact platformOk_props _ h1
      · exact rtypeOk_props _ h2
      · exact typeOk_props _ h3
      · exact typeOk_props _ h4
      · exact instOk_props _ h5
      · exact versionOk_props _ h6
    · simp only [Option.some.injEq] at hs
      subst hs
      simp only [Bool.and_eq_true] at hc3
      obtain ⟨⟨⟨⟨⟨h1, h2⟩, h3⟩, h4⟩, h5⟩, h6⟩ := hc3
      refine ⟨rfl, by simp [buildParts, (tagOk_props _ h6).1], ?_⟩
      intro seg hseg
      simp only [List.mem_cons, List.not_mem_nil, or_false] at hseg
      rcases hseg with rfl | rfl | rfl | rfl | rfl | rfl
      · exact platformOk_props _ h1
      · exact rtypeOk_props _ h2
      · exact typeOk_props _ h3
      · exact instOk_props _ h4
      · exact versionOk_props _ h5
      · exact tagOk_props _ h6
  case _ s1 s2 s3 s4 s5 s6 s7 =>
    split_ifs at hs with hc1 hc2 hc3
    · simp only [Option.some.injEq] at hs
      subst hs
      simp only [Bool.and_eq_true] at hc1
      obtain ⟨⟨⟨⟨⟨⟨h1, h2⟩, h3⟩, h4⟩, h5⟩, h6⟩, h7⟩ := hc1
      refine ⟨rfl, by simp [buildParts, (scopeOk_props _ h2).1, (typeOk_props _ h5).1], ?_⟩
      intro seg hseg
      simp only [List.mem_cons, List.not_mem_nil, or_false] at hseg
      rcases hseg with rfl | rfl | rfl | rfl | rfl | rfl | rfl
      · exact platformOk_props _ h1
      · exact scopeOk_props _ h2
      · exact rtypeOk_props _ h3
      · exact typeOk_props _ h4
      · exact typeOk_props _ h5
      · exact instOk_props _ h6
      · exact versionOk_props _ h7
    · simp only [Option.some.injEq] at hs
      subst hs
      simp only [Bool.and_eq_true] at hc2
      obtain ⟨⟨⟨⟨⟨⟨h1, h2⟩, h3⟩, h4⟩, h5⟩, h6⟩, h7⟩ := hc2
      refine ⟨rfl, by simp [buildParts, (scopeOk_props _ h2).1, (tagOk_props _ h7).1], ?_⟩
      intro seg hseg
      simp only [List.mem_cons, List.not_mem_nil, or_false] at hseg
      rcases hseg with rfl | rfl | rfl | rfl | rfl | rfl | rfl
      · exact platformOk_props _ h1
      · exact scopeOk_props _ h2
      · exact rtypeOk_props _ h3
      · exact typeOk_props _ h4
      · exact instOk_props _ h5
      · exact versionOk_props _ h6
      · exact tagOk_props _ h7
    · simp only [Option.some.injEq] at hs
      subst hs
      simp only [Bool.and_eq_true] at hc3
      obtain ⟨⟨⟨⟨⟨⟨h1, h2⟩, h3⟩, h4⟩, h5⟩, h6⟩, h7⟩ := hc3
      refine ⟨rfl, by simp [buildParts, (typeOk_props _ h4).1, (tagOk_props _ h7).1], ?_⟩
      intro seg hseg
      simp only [List.mem_cons, List.not_mem_nil, or_false] at hseg
      rcases hseg with rfl | rfl | rfl | rfl | rfl | rfl | rfl
      · exact platformOk_props _ h1
      · exact rtypeOk_props _ h2
      · exact typeOk_props _ h3
      · exact typeOk_props _ h4
      · exact instOk_props _ h5
      · exact versionOk_props _ h6
      · exact tagOk_props _ h7
  case _ s1 s2 s3 s4 s5 s6 s7 s8 =>
    split_ifs at hs with hc
    simp only [Option.some.injEq] at hs
    subst hs
    simp only [Bool.and_eq_true] at hc
    obtain ⟨⟨⟨⟨⟨⟨⟨h1, h2⟩, h3⟩, h4⟩, h5⟩, h6⟩, h7⟩, h8⟩ := hc
    refine ⟨rfl, by simp [buildParts, (scopeOk_props _ h2).1, (typeOk_props _ h5).1,
      (tagOk_props _ h8).1], ?_⟩
    intro seg hseg
    simp only [List.mem_cons, List.not_mem_nil, or_false] at hseg
    rcases hseg with rfl | rfl | rfl | rfl | rfl | rfl | rfl | rfl
    · exact platformOk_props _ h1
    · exact scopeOk_props _ h2
    · exact rtypeOk_props _ h3
    · exact typeOk_props _ h4
    · exact typeOk_props _ h5
    · exact instOk_props _ h6
    · exact versionOk_props _ h7
    · exact tagOk_props _ h8
  case _ =>
    exact absurd hs (by simp)

lemma splitOn_ne_nil_char (l : List Char) (c : Char) : l.splitOn c ≠ [] := by
  simp only [List.splitOn]
  exact List.splitOnP_ne_nil _ _

lemma mainPart_props (main : List Char) (hOpt : Option String) (c : Components)
    (hs : assignSegs (main.splitOn ':') hOpt = some c) :
    c.hash = hOpt ∧
    List.intercalate [':'] (buildParts c) = 't' :: 'r' :: 'n' :: ':' :: main ∧
    (∀ ch ∈ main, pyLowerChar ch = ch ∧ pyIsSpace ch = false ∧ ch ≠ '@') ∧
    collapseColons ('t' :: 'r' :: 'n' :: ':' :: main) = 't' :: 'r' :: 'n' :: ':' :: main := by
  obtain ⟨hh, hbp, hsegs⟩ := assignSegs_some _ _ _ hs
  have hsplit : [':'].intercalate (main.splitOn ':') = main := List.intercalate_splitOn main ':'
  have hglueH : ∀ seg ∈ main.splitOn ':', seg ≠ [] ∧ ∀ ch ∈ seg, ch ≠ ':' := by
    intro seg hseg
    obtain ⟨hne, hchars⟩ := hsegs seg hseg
    exact ⟨hne, fun ch hch => mainChar_ne_colon ch (hchars ch hch)⟩
  obtain ⟨hDD, hHead⟩ := segs_glue _ hglueH
  refine ⟨hh, ?_, ?_, ?_⟩
  · rw [hbp]
    cases hsegs0 : main.splitOn ':' with
    | nil => exact absurd hsegs0 (splitOn_ne_nil_char main ':')
    | cons b t =>
      rw [intercalate_cons_cons]
      rw [hsegs0] at hsplit
      rw [hsplit]
      rfl
  · intro ch hch
    rw [← hsplit] at hch
    rcases mem_intercalate_colon _ ch hch with rfl | ⟨seg, hseg, hm⟩
    · exact ⟨by decide, by decide, by decide⟩
    · have hm2 := (hsegs seg hseg).2 ch hm
      exact ⟨mainChar_lower ch hm2, mainChar_not_space ch hm2, mainChar_ne_at ch hm2⟩
  · rw [hsplit] at hDD hHead
    have h1 : noDD (':' :: main) = true := noDD_colon_cons main hDD hHead
    have h2 : noDD ('n' :: ':' :: main) = true := noDD_cons_of_ne _ _ (by decide) h1
    have h3 : noDD ('r' :: 'n' :: ':' :: main) = true := noDD_cons_of_ne _ _ (by decide) h2
    have h4 : noDD ('t' :: 'r' :: 'n' :: ':' :: main) = true := noDD_cons_of_ne _ _ (by decide) h3
    exact collapse_of_noDD _ h4

lemma splitOn_single_noAt (l : List Char) (hnoat : '@' ∉ l) : l.splitOn '@' = [l] := by
  have h2 : ∀ m ∈ [l], '@' ∉ m := by simpa using hnoat
  have := List.splitOn_intercalate [l] '@' h2 (by simp)
  rw [intercalate_single] at this
  exact this

lemma splitOn_pair_at (pre hl : List Char) (h1 : '@' ∉ pre) (h2 : '@' ∉ hl) :
    (pre ++ '@' :: hl).splitOn '@' = [pre, hl] := by
  have hselts : ∀ m ∈ [pre, hl], '@' ∉ m := by
    intro m hm
    rcases List.mem_cons.mp hm with rfl | hm2
    · exact h1
    · simpa using (by simpa using hm2 : m = hl) ▸ h2
  have hs := List.splitOn_intercalate [pre, hl] '@' hselts (by simp)
  have hi : [('@' : Char)].intercalate [pre, hl] = pre ++ '@' :: hl := by
    rw [intercalate_cons_cons, intercalate_single]
    simp
  rw [hi] at hs
  exact hs

lemma normalizeString_id_noHash (s : String) (hne : s ≠ "")
    (hchars : ∀ ch ∈ s.data, pyLowerChar ch = ch ∧ pyIsSpace ch = false)
    (hnoat : '@' ∉ s.data)
    (hcollapse : collapseColons s.data = s.data) :
    normalizeString s = s := by
  unfold normalizeString
  rw [if_neg hne]
  rw [map_fixed _ _ (fun ch hc => (hchars ch hc).1)]
  rw [pyStrip_all_not _ (fun ch hc => (hchars ch hc).2)]
  rw [splitOn_single_noAt _ hnoat]
  unfold normalizeAssemble
  simp only [List.getElem?_cons_succ, List.getElem?_nil, List.headD_cons]
  rw [hcollapse]

lemma normalizeString_id_hash (s : String) (pre hl : List Char) (hne : s ≠ "")
    (heq : s.data = pre ++ '@' :: hl)
    (hchars : ∀ ch ∈ s.data, pyLowerChar ch = ch ∧ pyIsSpace ch = false)
    (hnoatPre : '@' ∉ pre) (hnoatHl : '@' ∉ hl) (hlne : hl ≠ [])
    (hcollapse : collapseColons pre = pre) :
    normalizeString s = s := by
  unfold normalizeString
  rw [if_neg hne]
  rw [map_fixed _ _ (fun ch hc => (hchars ch hc).1)]
  rw [pyStrip_all_not _ (fun ch hc => (hchars ch hc).2)]
  rw [heq, splitOn_pair_at pre hl hnoatPre hnoatHl]
  unfold normalizeAssemble
  simp only [List.getElem?_cons_succ, List.getElem?_cons_zero, List.headD_cons]
  rw [hcollapse]
  simp only [hlne, ne_eq, not_false_iff, if_true]
  exact (String.ext heq.symm)

/-- Core inversion: a regex match rebuilds to the input string, and the
input string is already normalized. -/
lemma matchTRN_inv (s : String) (c : Components) (h : matchTRN s = some c) :
    buildString c = s ∧ normalizeString s = s := by
  unfold matchTRN at h
  split at h
  case _ rest heq =>
    cases hhs : hashSplit rest with
    | none => rw [hhs] at h; simp at h
    | some pr =>
      obtain ⟨main, hopt⟩ := pr
      rw [hhs] at h
      cases hopt with
      | none =>
        simp only at h
        obtain ⟨hh, hbld, hchars, hcoll⟩ := mainPart_props main none c h
        rcases hashSplit_some rest main none hhs with ⟨_, hmain, hnoat⟩ | ⟨hl, hcontra, _⟩
        · subst hmain
          have hsd : s.data = 't' :: 'r' :: 'n' :: ':' :: main := heq
          have hne : s ≠ "" := by
            intro hs0
            rw [hs0] at hsd
            simp at hsd
          constructor
          · unfold buildString
            rw [hh]
            simp only [List.append_nil]
            rw [hbld]
            exact String.ext hsd.symm
          · refine normalizeString_id_noHash s hne ?_ ?_ ?_
            · intro ch hch
              rw [hsd] at hch
              simp only [List.mem_cons] at hch
              rcases hch with rfl | rfl | rfl | rfl | hm
              · exact ⟨by decide, by decide⟩
              · exact ⟨by decide, by decide⟩
              · exact ⟨by decide, by decide⟩
              · exact ⟨by decide, by decide⟩
              · exact ⟨(hchars ch hm).1, (hchars ch hm).2.1⟩
            · rw [hsd]
              simp only [List.mem_cons, not_or]
              refine ⟨by decide, by decide, by decide, by decide, ?_⟩
              intro hm
              exact (hchars '@' hm).2.2 rfl
            · rw [hsd]
              exact hcoll
        · exact absurd hcontra (by simp)
      | some hstr =>
        simp only at h
        split_ifs at h with hok
        obtain ⟨hh, hbld, hchars, hcoll⟩ := mainPart_props main (some ⟨hstr⟩) c h
        rcases hashSplit_some rest main (some hstr) hhs with ⟨hcontra, _, _⟩ | ⟨hl, hsome, hrest, hnoatMain, hnoatHl⟩
        · exact absurd hcontra (by simp)
        · have hlh : hl = hstr := by
            simpa [eq_comm] using hsome
          subst hlh
          obtain ⟨hlne, hlchars⟩ := hashOk_props _ hok
          have hsd : s.data = ('t' :: 'r' :: 'n' :: ':' :: main) ++ '@' :: hl := by
            rw [heq, hrest]
            rfl
          have hne : s ≠ "" := by
            intro hs0
            rw [hs0] at hsd
            simp at hsd
          have hallchars : ∀ ch ∈ s.data, pyLowerChar ch = ch ∧ pyIsSpace ch = false := by
            intro ch hch
            rw [hsd] at hch
            rcases List.mem_append.mp hch with hm | hm
            · simp only [List.mem_cons] at hm
              rcases hm with rfl | rfl | rfl | rfl | hm2
              · exact ⟨by decide, by decide⟩
              · exact ⟨by decide, by decide⟩
              · exact ⟨by decide, by decide⟩
              · exact ⟨by decide, by decide⟩
              · exact ⟨(hchars ch hm2).1, (hchars ch hm2).2.1⟩
            · rcases List.mem_cons.mp hm with rfl | hm2
              · exact ⟨by decide, by decide⟩
              · have := hlchars ch hm2
                exact ⟨hashChar_lower ch this, hashChar_not_space ch this⟩
          constructor
          · unfold buildString
            rw [hh]
            simp only [mk_eq_empty_iff, data_mk]
            rw [if_neg hlne]
            rw [hbld]
            refine String.ext ?_
            rw [hsd]
          · refine normalizeString_id_hash s ('t' :: 'r' :: 'n' :: ':' :: main) hl hne hsd
              hallchars ?_ hnoatHl hlne hcoll
            simp only [List.mem_cons, not_or]
            refine ⟨by decide, by decide, by decide, by decide, ?_⟩
            intro hm
            exact (hchars '@' hm).2.2 rfl
  case _ =>
    exact absurd h (by simp)

lemma matchTRN_shape (s : String) (c : Components) (h : matchTRN s = some c) :
    ∃ rest, s.data = 't' :: 'r' :: 'n' :: ':' :: rest := by
  unfold matchTRN at h
  split at h
  case _ rest heq => exact ⟨rest, heq⟩
  case _ => exact absurd h (by simp)

lemma matchTRN_ne_empty (s : String) (c : Components) (h : matchTRN s = some c) : s ≠ "" := by
  obtain ⟨rest, hsd⟩ := matchTRN_shape s c h
  intro h0
  rw [h0] at hsd
  simp at hsd

lemma matchTRN_isPrefix (s : String) (c : Components) (h : matchTRN s = some c) :
    ("trn:".data.isPrefixOf s.data) = true := by
  obtain ⟨rest, hsd⟩ := matchTRN_shape s c h
  rw [hsd, show "trn:".data = ['t', 'r', 'n', ':'] from rfl]
  simp [List.isPrefixOf]

lemma parseComponents_of_match (s : String) (c : Components) (h : matchTRN s = some c) :
    parseComponents s = .ok c := by
  unfold parseComponents
  rw [matchTRN_isPrefix s c h]
  simp only [not_true, if_false, h]

lemma parseTRN_of_match (s : String) (c : Components) (v : Bool) (h : matchTRN s = some c) :
    parseTRN s v = mkTRN c (some v) := by
  obtain ⟨hbuild, hnorm⟩ := matchTRN_inv s c h
  unfold parseTRN
  rw [if_neg (matchTRN_ne_empty s c h)]
  have hn : (none.getD normalizeOnParse) = true := rfl
  rw [hn]
  simp only [if_true, hnorm, parseComponents_of_match s c h]

/-! ### Claim theorems -/

/-- C1: the validation-result cache is not observably transparent.  For
the strictly-validated input `trn:invalid-platform:tool:openapi:test:v1.0`
the first call raises the unsupported-platform `TRNValidationError`
(deterministically — the cache-free checks always raise it), but the
second call with the same arguments returns the cached boolean `False`
instead of raising. -/
theorem c1_cached_failure_returned_as_boolean :
    (validateWithCache {} "trn:invalid-platform:tool:openapi:test:v1.0" true).1 =
        .error (.validationError "Unsupported platform invalid-platform" "supported_platforms") ∧
      (validateWithCache
          ((validateWithCache {} "trn:invalid-platform:tool:openapi:test:v1.0" true).2)
          "trn:invalid-platform:tool:openapi:test:v1.0" true).1 = .ok false ∧
      validateCore "trn:invalid-platform:tool:openapi:test:v1.0" true =
        .error (.validationError "Unsupported platform invalid-platform" "supported_platforms") := by
  decide

/-- C2 counterexample: on
`trn:foo12:bar:openapi:test:v1.0` (strict) two distinct validation
rules fail — `supported_platforms` on the platform and
`supported_resource_types` on the resource type — yet
`get_validation_errors` returns a single message, not one per failing
rule. -/
theorem c2_counterexample_only_first_rule_reported :
    (getValidationErrors {} "trn:foo12:bar:openapi:test:v1.0" true).1.length = 1 ∧
      validatePlatform "foo12" true =
        .error (.validationError "Unsupported platform foo12" "supported_platforms") ∧
      validateResourceType "bar" true =
        .error (.validationError "Unsupported resource type bar" "supported_resource_types") := by
  decide

/-- C2 (amended): when the cache holds no entry for the key,
`get_validation_errors` never raises (it is a total function here),
returns an empty list exactly when validation succeeds, and otherwise
returns exactly one message — the first failing rule's — rather than
one message per failing rule. -/
theorem c2_collect_errors_first_failure_only (cache : VCache) (s : String) (strict : Bool)
    (h : lookupCache cache (cacheKey s strict) = none) :
    ((getValidationErrors cache s strict).1 = [] ↔ validateCore s strict = .ok ()) ∧
      (getValidationErrors cache s strict).1.length ≤ 1 := by
  unfold getValidationErrors validateWithCache
  rw [h]
  simp only [Option.isSome_none, Bool.and_false, Bool.false_eq_true, if_false]
  cases hv : validateCore s strict with
  | ok u =>
      cases u
      simp [hv]
  | error e =>
      simp [hv]
      split_ifs <;> simp

/-- C2 witness: the amended statement applied to a fresh cache and the
valid TRN `trn:user:alice:tool:openapi:github-api:v1.0`. -/
theorem c2_collect_errors_witness :
    (((getValidationErrors {} "trn:user:alice:tool:openapi:github-api:v1.0" true).1 = [] ↔
        validateCore "trn:user:alice:tool:openapi:github-api:v1.0" true = .ok ()) ∧
      (getValidationErrors {} "trn:user:alice:tool:openapi:github-api:v1.0" true).1.length ≤ 1) :=
  c2_collect_errors_first_failure_only {} "trn:user:alice:tool:openapi:github-api:v1.0" true
    (by decide)

/-- C3 counterexample: `trn:myplat:tool:openapi:test:v1.0` matches the
strict grammar, yet `parse` with `validate=False` still raises the
unsupported-platform error, because `TRNComponents.__post_init__` runs
on every construction. -/
theorem c3_counterexample_unvalidated_parse_rejects_unknown_platform :
    (matchTRN "trn:myplat:tool:openapi:test:v1.0").isSome = true ∧
      parseTRN "trn:myplat:tool:openapi:test:v1.0" false =
        .error (.validationError "Unsupported platform myplat" "supported_platforms") := by
  decide

/-- C3 (amended): for a grammar-matching string, `parse` with
`validate=False` returns exactly the nine captured groups (with absent
optional groups `none`) — provided the components also pass the
construction-time invariants of `__post_init__` (closed platform and
resource-type sets, reserved words), which run regardless of the
`validate` flag. -/
theorem c3_parse_unvalidated_returns_groups (s : String) (c : Components)
    (h1 : matchTRN s = some c) (h2 : postInit c = .ok ()) :
    parseTRN s false = .ok c := by
  rw [parseTRN_of_match s c false h1]
  unfold mkTRN
  rw [h2]
  rfl

/-- C3 witness: the amended statement at
`trn:user:alice:tool:openapi:github-api:v1.0`. -/
theorem c3_parse_unvalidated_witness :
    parseTRN "trn:user:alice:tool:openapi:github-api:v1.0" false =
      .ok { platform := "user", resource_type := "tool", type := "openapi",
            instance_id := "github-api", version := "v1.0", scope := some "alice" } :=
  c3_parse_unvalidated_returns_groups "trn:user:alice:tool:openapi:github-api:v1.0"
    { platform := "user", resource_type := "tool", type := "openapi",
      instance_id := "github-api", version := "v1.0", scope := some "alice" }
    (by decide) (by decide)

/-- C5 counterexample: `trn:foo:tool:openapi:test:v1.0` is accepted by
the strict grammar, but `parse` on it does not succeed (the unknown
platform is rejected at construction), refuting the "parse(S) succeeds"
half of the claim. -/
theorem c5_counterexample_parse_fails_on_grammar_string :
    (matchTRN "trn:foo:tool:openapi:test:v1.0").isSome = true ∧
      parseTRN "trn:foo:tool:openapi:test:v1.0" true =
        .error (.validationError "Unsupported platform foo" "supported_platforms") := by
  decide

/-- C5 (amended): for every string accepted by the strict grammar,
normalization is the identity, rebuilding the canonical string from the
captured groups returns the string itself, and whenever `parse`
succeeds its result rebuilds to the input — but `parse` itself need not
succeed on every grammar-accepted string. -/
theorem c5_grammar_rebuild_roundtrip (s : String) (c : Components)
    (h : matchTRN s = some c) :
    normalizeString s = s ∧ buildString c = s ∧
      ∀ (v : Bool) (r : Components), parseTRN s v = .ok r → buildString r = s := by
  obtain ⟨hb, hn⟩ := matchTRN_inv s c h
  refine ⟨hn, hb, ?_⟩
  intro v r hr
  rw [parseTRN_of_match s c v h] at hr
  unfold mkTRN at hr
  cases hpi : postInit c with
  | error e => rw [hpi] at hr; exact absurd hr (by simp)
  | ok u =>
      rw [hpi] at hr
      simp only at hr
      split_ifs at hr with hv
      · cases hvd : validateComponentsDict c strictValidationDefault with
        | error e => rw [hvd] at hr; exact absurd hr (by simp)
        | ok u2 =>
            rw [hvd] at hr
            simp only [Except.ok.injEq] at hr
            rw [← hr]
            exact hb
      · simp only [Except.ok.injEq] at hr
        rw [← hr]
        exact hb

/-- C5 witness: the amended statement at
`trn:user:alice:tool:openapi:github-api:v1.0`. -/
theorem c5_grammar_rebuild_witness :
    normalizeString "trn:user:alice:tool:openapi:github-api:v1.0" =
        "trn:user:alice:tool:openapi:github-api:v1.0" ∧
      buildString
          { platform := "user", resource_type := "tool", type := "openapi",
            instance_id := "github-api", version := "v1.0", scope := some "alice" } =
        "trn:user:alice:tool:openapi:github-api:v1.0" ∧
      ∀ (v : Bool) (r : Components),
        parseTRN "trn:user:alice:tool:openapi:github-api:v1.0" v = .ok r →
          buildString r = "trn:user:alice:tool:openapi:github-api:v1.0" :=
  c5_grammar_rebuild_roundtrip "trn:user:alice:tool:openapi:github-api:v1.0"
    { platform := "user", resource_type := "tool", type := "openapi",
      instance_id := "github-api", version := "v1.0", scope := some "alice" }
    (by decide)

/-- C6: recovery mapping of a 6-part input applies the scope heuristic
first — when `parts[1]` looks like a scope for `parts[0]` the parts are
read as platform:scope:resource_type:type:instance_id:version, even
when the last part also looks like a version; only otherwise is the
version heuristic consulted to read the last part as a tag; and
otherwise `parts[3]` becomes the subtype. -/
theorem c6_recovery_six_parts_scope_first (p0 p1 p2 p3 p4 p5 : String) (hv : Option String) :
    mapRecoveryComponents [p0, p1, p2, p3, p4, p5] hv =
      (if looksLikeScope p1 p0 then
        .ok { platform := p0, scope := some p1, resource_type := p2, type := p3,
              instance_id := p4, version := p5, hash := hv }
      else if looksLikeVersion p5 then
        .ok { platform := p0, resource_type := p1, type := p2, instance_id := p3,
              version := p4, tag := some p5, hash := hv }
      else
        .ok { platform := p0, resource_type := p1, type := p2, subtype := some p3,
              instance_id := p4, version := p5, hash := hv }) := by
  rfl

/-- C10: the unsupported-subtype branch of `_validate_subtype` is
unreachable — the literal guard set equals SUPPORTED_TOOL_SUBTYPES — so
for every subtype value and mode the function reduces to the
reserved-word check alone. -/
theorem c10_unsupported_subtype_branch_unreachable (st : String) (strict : Bool) :
    validateSubtype st strict = checkReservedWords st "subtype" := by
  unfold validateSubtype
  by_cases h1 : (strict && !supportedToolSubtypes.contains st) = true
  · rw [if_pos h1]
    by_cases h2 : guardSubtypes.contains st = true
    · have hmem : st ∈ guardSubtypes := by simpa using h2
      have hsup : supportedToolSubtypes.contains st = true := by
        simp only [guardSubtypes, List.mem_cons, List.not_mem_nil, or_false] at hmem
        rcases hmem with rfl | rfl | rfl | rfl | rfl <;> decide
      simp only [Bool.and_eq_true, Bool.not_eq_true'] at h1
      rw [h1.2] at hsup
      exact absurd hsup (by simp)
    · simp only [Bool.not_eq_true] at h2
      rw [h2]
      simp
  · rw [if_neg h1]

/-! ### C7: alias version comparison -/

lemma aliasLookup_some_mem (s : String) (x : Nat) (h : aliasOrderLookup s = some x) :
    s ∈ commonAliases := by
  unfold aliasOrderLookup at h
  cases hf : aliasOrder.find? (fun e => e.1 = s) with
  | none => rw [hf] at h; exact absurd h (by simp)
  | some e =>
      have hmem := List.mem_of_find?_eq_some hf
      have hp := List.find?_some hf
      simp only [decide_eq_true_eq] at hp
      simp only [aliasOrder, List.mem_cons, List.not_mem_nil, or_false] at hmem
      rcases hmem with rfl | rfl | rfl | rfl | rfl | rfl | rfl <;> (rw [← hp]; decide)

lemma finalAliasLine_eq (op : String) : finalAliasLine op = (op == "!=") := by
  unfold finalAliasLine
  by_cases h1 : op = "=="
  · subst h1; rfl
  · by_cases h2 : op = "!="
    · subst h2; rfl
    · rw [if_neg (by simp [h1, h2])]
      have h3 : (op == "!=") = false := by
        simpa using h2
      rw [h3]

lemma compareTrn_alias_path (v1 v2 op : String) (hop : op ∈ versionOperators)
    (hd : v1 ∈ commonAliases ∨ v2 ∈ commonAliases) :
    compareTrnVersions v1 v2 op = .ok (compareAliasVersions v1 v2 op) := by
  unfold compareTrnVersions
  rw [if_neg (by simp [hop])]
  rcases hd with hc | hc
  · rw [if_pos (by simp [hc])]
  · rw [if_pos (by simp [hc])]

/-- C7 counterexample: `"experimental"` is a member of the fixed alias
set COMMON_ALIASES that triggers alias comparison, yet
`compareVersions("experimental", "experimental", "==")` is `False`,
refuting "`compareVersions(a, a, \"==\")` is true for every alias". -/
theorem c7_counterexample_experimental_not_equal_itself :
    ("experimental" ∈ commonAliases) ∧
      compareTrnVersions "experimental" "experimental" "==" = .ok false := by
  decide

/-- C7 (amended): the fixed total order
dev(0) < alpha(1) < beta(2) < rc(3) < stable(4) = lts(4) < latest(5)
governs the six equality/order operators whenever both arguments have
an entry in the order table (so `a == a` holds for those seven aliases,
and `~`/`^` give `False` on the alias path); when either argument is in
the alias set but one side has no order entry (a numeric version, or
the alias `"experimental"`), every operator returns `False` except
`"!="`. -/
theorem c7_alias_order_amended (a b v op : String) (x y : Nat)
    (hx : aliasOrderLookup a = some x) (hy : aliasOrderLookup b = some y)
    (hop : op ∈ versionOperators) (hv : aliasOrderLookup v = none) :
    (aliasOrderLookup "dev" = some 0 ∧ aliasOrderLookup "alpha" = some 1 ∧
      aliasOrderLookup "beta" = some 2 ∧ aliasOrderLookup "rc" = some 3 ∧
      aliasOrderLookup "stable" = some 4 ∧ aliasOrderLookup "lts" = some 4 ∧
      aliasOrderLookup "latest" = some 5) ∧
    compareTrnVersions a a "==" = .ok true ∧
    compareTrnVersions a b "==" = .ok (x == y) ∧
    compareTrnVersions a b "!=" = .ok (x != y) ∧
    compareTrnVersions a b ">" = .ok (decide (y < x)) ∧
    compareTrnVersions a b ">=" = .ok (decide (y ≤ x)) ∧
    compareTrnVersions a b "<" = .ok (decide (x < y)) ∧
    compareTrnVersions a b "<=" = .ok (decide (x ≤ y)) ∧
    compareTrnVersions a b "~" = .ok false ∧
    compareTrnVersions a b "^" = .ok false ∧
    compareTrnVersions a v op = .ok (op == "!=") ∧
    compareTrnVersions v a op = .ok (op == "!=") := by
  have hma := aliasLookup_some_mem a x hx
  have hmb := aliasLookup_some_mem b y hy
  have hopc := hop
  refine ⟨by decide, ?_, ?_, ?_, ?_, ?_, ?_, ?_, ?_, ?_, ?_, ?_⟩
  · rw [compareTrn_alias_path a a "==" (by decide) (.inl hma)]
    simp [compareAliasVersions, hx]
  · rw [compareTrn_alias_path a b "==" (by decide) (.inl hma)]
    simp [compareAliasVersions, hx, hy]
  · rw [compareTrn_alias_path a b "!=" (by decide) (.inl hma)]
    simp [compareAliasVersions, hx, hy]
  · rw [compareTrn_alias_path a b ">" (by decide) (.inl hma)]
    simp [compareAliasVersions, hx, hy]
  · rw [compareTrn_alias_path a b ">=" (by decide) (.inl hma)]
    simp [compareAliasVersions, hx, hy]
  · rw [compareTrn_alias_path a b "<" (by decide) (.inl hma)]
    simp [compareAliasVersions, hx, hy]
  · rw [compareTrn_alias_path a b "<=" (by decide) (.inl hma)]
    simp [compareAliasVersions, hx, hy]
  · rw [compareTrn_alias_path a b "~" (by decide) (.inl hma)]
    simp [compareAliasVersions, hx, hy, finalAliasLine_eq]
  · rw [compareTrn_alias_path a b "^" (by decide) (.inl hma)]
    simp [compareAliasVersions, hx, hy, finalAliasLine_eq]
  · rw [compareTrn_alias_path a v op hopc (.inl hma)]
    simp [compareAliasVersions, hx, hv, finalAliasLine_eq]
  · rw [compareTrn_alias_path v a op hopc (.inr hma)]
    simp [compareAliasVersions, hx, hv, finalAliasLine_eq]

/-- C7 witness: the amended statement at
`a = "stable"`, `b = "beta"`, `v = "v1.0"`, `op = ">"`. -/
theorem c7_alias_order_witness :
    (aliasOrderLookup "dev" = some 0 ∧ aliasOrderLookup "alpha" = some 1 ∧
      aliasOrderLookup "beta" = some 2 ∧ aliasOrderLookup "rc" = some 3 ∧
      aliasOrderLookup "stable" = some 4 ∧ aliasOrderLookup "lts" = some 4 ∧
      aliasOrderLookup "latest" = some 5) ∧
    compareTrnVersions "stable" "stable" "==" = .ok true ∧
    compareTrnVersions "stable" "beta" "==" = .ok (4 == 2) ∧
    compareTrnVersions "stable" "beta" "!=" = .ok (4 != 2) ∧
    compareTrnVersions "stable" "beta" ">" = .ok (decide (2 < 4)) ∧
    compareTrnVersions "stable" "beta" ">=" = .ok (decide (2 ≤ 4)) ∧
    compareTrnVersions "stable" "beta" "<" = .ok (decide (4 < 2)) ∧
    compareTrnVersions "stable" "beta" "<=" = .ok (decide (4 ≤ 2)) ∧
    compareTrnVersions "stable" "beta" "~" = .ok false ∧
    compareTrnVersions "stable" "beta" "^" = .ok false ∧
    compareTrnVersions "stable" "v1.0" ">" = .ok (">" == "!=") ∧
    compareTrnVersions "v1.0" "stable" ">" = .ok (">" == "!=") :=
  c7_alias_order_amended "stable" "beta" "v1.0" ">" 4 2 (by decide) (by decide)
    (by decide) (by decide)

/-! ### C8: base-TRN extraction -/

lemma intercalate_append_last (xs : List (List Char)) (y : List Char) (hxs : xs ≠ []) :
    List.intercalate [':'] (xs ++ [y]) = List.intercalate [':'] xs ++ ':' :: y := by
  induction xs with
  | nil => exact absurd rfl hxs
  | cons a t ih =>
    cases t with
    | nil =>
      rw [show ([a] ++ [y]) = [a, y] from rfl, intercalate_cons_cons, intercalate_single,
        intercalate_single]
      simp
    | cons b t2 =>
      have hrec := ih (by simp)
      rw [show ((a :: b :: t2) ++ [y]) = a :: ((b :: t2) ++ [y]) from rfl]
      rw [show ((b :: t2) ++ [y]) = b :: (t2 ++ [y]) from rfl]
      rw [intercalate_cons_cons]
      rw [show (b :: (t2 ++ [y])) = ((b :: t2) ++ [y]) from rfl]
      rw [hrec, intercalate_cons_cons]
      simp

lemma postInitReserved_ok_iff (l : List String) :
    postInitReserved l = .ok () ↔
      ∀ v ∈ l, (v ≠ "" && reservedWords.contains (pyLower v)) = false := by
  induction l with
  | nil => simp [postInitReserved]
  | cons v rest ih =>
    unfold postInitReserved
    by_cases h : (v ≠ "" && reservedWords.contains (pyLower v)) = true
    · rw [if_pos h]
      constructor
      · intro hc; exact absurd hc (by simp)
      · intro hall
        have := hall v (by simp)
        rw [this] at h
        exact absurd h (by simp)
    · rw [if_neg h, ih]
      constructor
      · intro hall w hw
        rcases List.mem_cons.mp hw with rfl | hw2
        · exact Bool.not_eq_true _ ▸ (by simpa using h)
        · exact hall w hw2
      · intro hall w hw
        exact hall w (List.mem_cons_of_mem v hw)

lemma postInit_ok_iff (c : Components) :
    postInit c = .ok () ↔
      c.platform ≠ "" ∧ c.resource_type ≠ "" ∧ c.type ≠ "" ∧ c.instance_id ≠ "" ∧
      c.version ≠ "" ∧ supportedPlatforms.contains c.platform = true ∧
      supportedResourceTypes.contains c.resource_type = true ∧
      postInitReserved [c.platform, c.resource_type, c.type, c.instance_id, c.version,
        c.scope.getD "", c.subtype.getD "", c.tag.getD "", c.hash.getD ""] = .ok () := by
  unfold postInit
  split_ifs with h1 h2 h3 h4 h5 h6 h7
  · simp [h1]
  · simp [h2]
  · simp [h3]
  · simp [h4]
  · simp [h5]
  · constructor
    · intro hc; exact absurd hc (by simp)
    · intro hall
      rw [hall.2.2.2.2.2.1] at h6
      exact absurd h6 (by simp)
  · constructor
    · intro hc; exact absurd hc (by simp)
    · intro hall
      rw [hall.2.2.2.2.2.2.1] at h7
      exact absurd h7 (by simp)
  · simp only [Bool.not_eq_true] at h6 h7
    constructor
    · intro hres
      refine ⟨h1, h2, h3, h4, h5, ?_, ?_, hres⟩
      · simpa using h6
      · simpa using h7
    · intro hall
      exact hall.2.2.2.2.2.2.2

lemma postInit_getBase (c : Components) (h : postInit c = .ok ()) :
    postInit (getBaseTrn c) = .ok () := by
  rw [postInit_ok_iff] at h
  obtain ⟨h1, h2, h3, h4, h5, h6, h7, hres⟩ := h
  rw [postInitReserved_ok_iff] at hres
  rw [postInit_ok_iff]
  unfold getBaseTrn
  refine ⟨h1, h2, h3, h4, by simp, h6, h7, ?_⟩
  rw [postInitReserved_ok_iff]
  intro w hw
  simp only [List.mem_cons, List.not_mem_nil, or_false] at hw
  rcases hw with rfl | rfl | rfl | rfl | rfl | rfl | rfl | rfl | rfl
  · exact hres c.platform (by simp)
  · exact hres c.resource_type (by simp)
  · exact hres c.type (by simp)
  · exact hres c.instance_id (by simp)
  · decide
  · exact hres (c.scope.getD "") (by simp)
  · exact hres (c.subtype.getD "") (by simp)
  · decide
  · decide

lemma buildString_getBase (c : Components) :
    buildString (getBaseTrn c) = baseOfComponents c ++ ":*" := by
  unfold buildString getBaseTrn baseOfComponents
  have hbp : buildParts { c with version := "*", tag := none, hash := none } =
      baseParts c ++ [['*']] := by
    unfold buildParts baseParts
    simp
  rw [hbp]
  have hne : baseParts c ≠ [] := by unfold baseParts; simp
  rw [intercalate_append_last _ _ hne]
  refine String.ext ?_
  simp [String.data]

/-- C8 counterexample: on the spec's own example, the string entry
point yields the truncated base, but `utils.extract_base_trn` on the
Identifier (`str(trn.get_base_trn())`) yields the base with the
version replaced by the wildcard `*`, not the truncated
platform..instance_id prefix. -/
theorem c8_counterexample_object_base_keeps_wildcard :
    matchTRN "trn:user:alice:tool:openapi:github-api:v1.0:beta@sha256:abc123" =
        some { platform := "user", resource_type := "tool", type := "openapi",
               instance_id := "github-api", version := "v1.0", scope := some "alice",
               tag := some "beta", hash := some "sha256:abc123" } ∧
      utilsExtractBaseOfObject
          { platform := "user", resource_type := "tool", type := "openapi",
            instance_id := "github-api", version := "v1.0", scope := some "alice",
            tag := some "beta", hash := some "sha256:abc123" } =
        .ok "trn:user:alice:tool:openapi:github-api:*" ∧
      extractBaseTrn "trn:user:alice:tool:openapi:github-api:v1.0:beta@sha256:abc123" =
        "trn:user:alice:tool:openapi:github-api" ∧
      ("trn:user:alice:tool:openapi:github-api:*" : String) ≠
        "trn:user:alice:tool:openapi:github-api" := by
  decide

/-- C8 (amended): for every grammar-matching TRN string, the string
entry point `extract_base_trn` yields the base truncated to the
platform..instance_id prefix (omitting version, tag and hash); the
Identifier entry point instead yields that base with `:*` appended
(the version replaced by the wildcard). -/
theorem c8_base_truncation_amended (s : String) (c : Components)
    (h : matchTRN s = some c) (hpi : postInit c = .ok ()) :
    extractBaseTrn s = baseOfComponents c ∧
      utilsExtractBaseOfObject c = .ok (baseOfComponents c ++ ":*") := by
  constructor
  · unfold extractBaseTrn
    rw [parseComponents_of_match s c h]
  · have hb := postInit_getBase c hpi
    have hmk : mkTRN (getBaseTrn c) (some false) = .ok (getBaseTrn c) := by
      unfold mkTRN
      rw [hb]
      rfl
    unfold utilsExtractBaseOfObject
    rw [hmk]
    show Except.ok (buildString (getBaseTrn c)) = _
    rw [buildString_getBase]

/-- C8 witness: the amended statement on the spec's example string. -/
theorem c8_base_truncation_witness :
    extractBaseTrn "trn:user:alice:tool:openapi:github-api:v1.0:beta@sha256:abc123" =
        baseOfComponents
          { platform := "user", resource_type := "tool", type := "openapi",
            instance_id := "github-api", version := "v1.0", scope := some "alice",
            tag := some "beta", hash := some "sha256:abc123" } ∧
      utilsExtractBaseOfObject
          { platform := "user", resource_type := "tool", type := "openapi",
            instance_id := "github-api", version := "v1.0", scope := some "alice",
            tag := some "beta", hash := some "sha256:abc123" } =
        .ok (baseOfComponents
            { platform := "user", resource_type := "tool", type := "openapi",
              instance_id := "github-api", version := "v1.0", scope := some "alice",
              tag := some "beta", hash := some "sha256:abc123" } ++ ":*") :=
  c8_base_truncation_amended "trn:user:alice:tool:openapi:github-api:v1.0:beta@sha256:abc123"
    { platform := "user", resource_type := "tool", type := "openapi",
      instance_id := "github-api", version := "v1.0", scope := some "alice",
      tag := some "beta", hash := some "sha256:abc123" }
    (by decide) (by decide)

/-! ### C9: batch validation -/

lemma batchLoop_lengths (strict : Bool) :
    ∀ (l : List String) (cache : VCache),
      (batchLoop strict cache l).1.length + (batchLoop strict cache l).2.1.length = l.length := by
  intro l
  induction l with
  | nil => intro cache; rfl
  | cons trn rest ih =>
    intro cache
    unfold batchLoop
    cases hv : validateWithCache cache trn strict with
    | mk r cache' =>
        cases r with
        | ok b =>
            have := ih cache'
            rcases hb : batchLoop strict cache' rest with ⟨v2, i2, e2, c2⟩
            rw [hb] at this
            simp only [hb]
            simp only [List.length_cons]
            simp at this ⊢
            omega
        | error err =>
            have := ih cache'
            rcases hb : batchLoop strict cache' rest with ⟨v2, i2, e2, c2⟩
            rw [hb] at this
            simp only [hb]
            simp only [List.length_cons]
            simp at this ⊢
            omega

/-- C9: batch validation reports `valid_count + invalid_count ==
total_count == len(trn_list)` and `success_rate ==
valid_count/total_count` (with `0.0` for the empty list), whatever the
initial cache state and mode. -/
theorem c9_batch_counts (cache : VCache) (l : List String) (strict : Bool) :
    (batchValidateTrns l strict cache).1.validCount +
        (batchValidateTrns l strict cache).1.invalidCount =
      (batchValidateTrns l strict cache).1.totalCount ∧
    (batchValidateTrns l strict cache).1.totalCount = l.length ∧
    (batchValidateTrns l strict cache).1.successRate =
      (if l.length = 0 then 0
       else ((batchValidateTrns l strict cache).1.validCount : ℚ) /
         ((batchValidateTrns l strict cache).1.totalCount : ℚ)) := by
  have hlen := batchLoop_lengths strict l cache
  unfold batchValidateTrns
  rcases hb : batchLoop strict cache l with ⟨v, i, e, cache2⟩
  rw [hb] at hlen
  simp only at hlen ⊢
  refine ⟨hlen, by simp, ?_⟩
  by_cases hl : l = []
  · subst hl
    simp
  · rw [if_pos hl, if_neg (by simpa using hl)]

/-! ### C4: URL round trip — character and encoding lemmas -/

lemma ne_of_true_false {f : Char → Bool} {c d : Char} (h : f c = true) (hd : f d = false) :
    c ≠ d := by
  intro he
  rw [he, hd] at h
  cases h

/-- Characters that can appear in an encoded path segment or quoted
hash value: main-class characters, `%`, and upper-case letters (hex
digits of the escapes). -/
def encChar (c : Char) : Bool := mainChar c || c = '%' || (65 ≤ c.toNat && c.toNat ≤ 90)

/-- The `.`-escaping that URL_ENCODING_MAP effectively performs on
grammar-class segment text. -/
def dotEnc (c : Char) : List Char := if c = '.' then ['%', '2', 'E'] else [c]

lemma mainChar_encChar (c : Char) (h : mainChar c = true) : encChar c = true := by
  simp [encChar, h]

lemma flatMap_dotEnc_chars (l : List Char) (h : ∀ c ∈ l, mainChar c = true) :
    ∀ c ∈ l.flatMap dotEnc, encChar c = true := by
  intro c hc
  rcases List.mem_flatMap.mp hc with ⟨a, ha, hm⟩
  unfold dotEnc at hm
  split_ifs at hm with hdot
  · simp only [List.mem_cons, List.not_mem_nil, or_false] at hm
    rcases hm with rfl | rfl | rfl <;> decide
  · rcases List.mem_singleton.mp hm with rfl
    exact mainChar_encChar c (h c ha)

lemma char_eq_of_toNat (a b : Char) (h : a.toNat = b.toNat) : a = b := by
  have := congrArg Char.ofNat h
  rwa [Char.ofNat_toNat, Char.ofNat_toNat] at this

lemma pyQuote_chars (l : List Char) (h : ∀ c ∈ l, isHashChar c = true) :
    ∀ c ∈ pyQuote l, encChar c = true := by
  intro c hc
  rcases List.mem_flatMap.mp hc with ⟨a, ha, hm⟩
  rcases hashChar_toNat a (h a ha) with h1 | h1 | h1
  · have hla : isLowerAlpha a = true := by
      simp only [isLowerAlpha, Bool.and_eq_true, decide_eq_true_eq]
      omega
    rw [if_pos (by simp [isQuoteSafe, hla])] at hm
    rcases List.mem_singleton.mp hm with rfl
    simp [encChar, mainChar, isLowerDigit, hla]
  · have hld : isDigitCh a = true := by
      simp only [isDigitCh, Bool.and_eq_true, decide_eq_true_eq]
      omega
    rw [if_pos (by simp [isQuoteSafe, hld])] at hm
    rcases List.mem_singleton.mp hm with rfl
    simp [encChar, mainChar, isLowerDigit, hld]
  · have ha58 : a = ':' := char_eq_of_toNat a ':' (by rw [h1]; rfl)
    subst ha58
    rw [if_neg (by decide)] at hm
    rw [show hexDigitUpper (Char.toNat ':' / 16) = '3' from rfl,
      show hexDigitUpper (Char.toNat ':' % 16) = 'A' from rfl] at hm
    simp only [List.mem_cons, List.not_mem_nil, or_false] at hm
    rcases hm with rfl | rfl | rfl <;> decide

lemma pyReplaceChar_no_target (l : List Char) (t : Char) (r : List Char)
    (h : ∀ c ∈ l, c ≠ t) : pyReplaceChar l t r = l := by
  induction l with
  | nil => rfl
  | cons c rest ih =>
      unfold pyReplaceChar
      simp only [List.flatMap_cons]
      rw [if_neg (h c (by simp))]
      have := ih fun x hx => h x (by simp [hx])
      unfold pyReplaceChar at this
      rw [this]
      rfl

lemma percentDecode_cons_ne (c : Char) (l : List Char) (h : c ≠ '%') :
    percentDecode (c :: l) = c :: percentDecode l := by
  rw [percentDecode.eq_def]
  simp only [if_neg h]

lemma percentDecode_escape (a b : Char) (x y : Nat) (l : List Char)
    (ha : hexVal a = some x) (hb : hexVal b = some y) :
    percentDecode ('%' :: a :: b :: l) = Char.ofNat (16 * x + y) :: percentDecode l := by
  rw [percentDecode.eq_def]
  simp only [if_pos, ha, hb, reduceIte]

lemma percentDecode_no_pct (l : List Char) (h : ∀ c ∈ l, c ≠ '%') :
    percentDecode l = l := by
  induction l with
  | nil => simp [percentDecode]
  | cons c rest ih =>
      rw [percentDecode_cons_ne c rest (h c (by simp))]
      rw [ih fun x hx => h x (by simp [hx])]

lemma percentDecode_dotEnc (l : List Char) (h : ∀ c ∈ l, mainChar c = true) :
    percentDecode (l.flatMap dotEnc) = l := by
  induction l with
  | nil => simp [percentDecode]
  | cons c rest ih =>
      have hrec := ih fun x hx => h x (by simp [hx])
      simp only [List.flatMap_cons]
      by_cases hdot : c = '.'
      · subst hdot
        rw [show dotEnc '.' = ['%', '2', 'E'] from rfl]
        simp only [List.cons_append, List.nil_append]
        rw [percentDecode_escape '2' 'E' 2 14 _ rfl rfl]
        rw [hrec]
      · rw [show dotEnc c = [c] from by unfold dotEnc; rw [if_neg hdot]]
        simp only [List.singleton_append]
        rw [percentDecode_cons_ne c _ (ne_of_true_false (h c (by simp)) (by decide))]
        rw [hrec]

lemma pyQuote_cons (c : Char) (l : List Char) :
    pyQuote (c :: l) =
      (if isQuoteSafe c then [c]
       else ['%', hexDigitUpper (c.toNat / 16), hexDigitUpper (c.toNat % 16)]) ++ pyQuote l := by
  simp [pyQuote]

lemma percentDecode_quote (l : List Char) (h : ∀ c ∈ l, isHashChar c = true) :
    percentDecode (pyQuote l) = l := by
  induction l with
  | nil => simp [pyQuote, percentDecode]
  | cons c rest ih =>
      have hrec := ih fun x hx => h x (by simp [hx])
      rw [pyQuote_cons]
      rcases hashChar_toNat c (h c (by simp)) with h1 | h1 | h1
      · have hla : isLowerAlpha c = true := by
          simp only [isLowerAlpha, Bool.and_eq_true, decide_eq_true_eq]
          omega
        rw [if_pos (by simp [isQuoteSafe, hla])]
        simp only [List.singleton_append]
        have hne : c ≠ '%' := by
          intro he
          rw [he] at h1
          simp at h1
        rw [percentDecode_cons_ne c _ hne, hrec]
      · have hld : isDigitCh c = true := by
          simp only [isDigitCh, Bool.and_eq_true, decide_eq_true_eq]
          omega
        rw [if_pos (by simp [isQuoteSafe, hld])]
        simp only [List.singleton_append]
        have hne : c ≠ '%' := by
          intro he
          rw [he] at h1
          simp at h1
        rw [percentDecode_cons_ne c _ hne, hrec]
      · have hc58 : c = ':' := char_eq_of_toNat c ':' (by rw [h1]; rfl)
        subst hc58
        rw [if_neg (by decide)]
        rw [show hexDigitUpper (Char.toNat ':' / 16) = '3' from rfl,
          show hexDigitUpper (Char.toNat ':' % 16) = 'A' from rfl]
        simp only [List.cons_append, List.nil_append]
        rw [percentDecode_escape '3' 'A' 3 10 _ rfl rfl, hrec]

lemma unquotePlus_quote (l : List Char) (h : ∀ c ∈ l, isHashChar c = true) :
    pyUnquotePlus (pyQuote l) = l := by
  unfold pyUnquotePlus
  rw [map_fixed _ _ fun c hc => by
    rw [if_neg (ne_of_true_false (pyQuote_chars l h c hc) (by decide))]]
  exact percentDecode_quote l h

lemma takeWhile_all_sat (p : Char → Bool) (l : List Char) (h : ∀ c ∈ l, p c = true) :
    l.takeWhile p = l := by
  induction l with
  | nil => rfl
  | cons c rest ih =>
      simp only [List.takeWhile_cons, h c (by simp), if_true]
      rw [ih fun x hx => h x (by simp [hx])]

lemma takeWhile_append_stop (p : Char → Bool) (a b : List Char) (c : Char)
    (ha : ∀ x ∈ a, p x = true) (hc : p c = false) :
    (a ++ c :: b).takeWhile p = a := by
  induction a with
  | nil => simp [List.takeWhile_cons, hc]
  | cons d rest ih =>
      simp only [List.cons_append, List.takeWhile_cons, ha d (by simp), if_true]
      rw [ih fun x hx => ha x (by simp [hx])]

lemma dropWhile_append_stop (p : Char → Bool) (a b : List Char) (c : Char)
    (ha : ∀ x ∈ a, p x = true) (hc : p c = false) :
    (a ++ c :: b).dropWhile p = c :: b := by
  induction a with
  | nil => simp [List.dropWhile_cons, hc]
  | cons d rest ih =>
      simp only [List.cons_append, List.dropWhile_cons, ha d (by simp), if_true]
      exact ih fun x hx => ha x (by simp [hx])

lemma splitOn_no_sep (sep : Char) (l : List Char) (h : sep ∉ l) : l.splitOn sep = [l] := by
  have h2 : ∀ m ∈ [l], sep ∉ m := by simpa using h
  have := List.splitOn_intercalate [l] sep h2 (by simp)
  rwa [intercalate_single] at this

lemma getLastD_irrel (b : List Char) (hb : b ≠ []) (d e : Char) :
    b.getLastD d = b.getLastD e := by
  cases b with
  | nil => exact absurd rfl hb
  | cons z zs =>
      show (z :: zs).getLast?.getD d = (z :: zs).getLast?.getD e
      cases hq : (z :: zs).getLast? with
      | none =>
          rw [List.getLast?_eq_none_iff] at hq
          exact absurd hq (by simp)
      | some w => simp

lemma getLastD_append_right (a b : List Char) (hb : b ≠ []) (d : Char) :
    (a ++ b).getLastD d = b.getLastD d := by
  induction a generalizing d with
  | nil => rfl
  | cons c rest ih =>
      show (c :: (rest ++ b)).getLastD d = _
      rw [List.getLastD_cons, ih c]
      exact getLastD_irrel b hb c d

lemma getLastD_mem (l : List Char) (hl : l ≠ []) (d : Char) : l.getLastD d ∈ l := by
  induction l with
  | nil => exact absurd rfl hl
  | cons c rest ih =>
      cases hr : rest with
      | nil => simp [List.getLastD_cons]
      | cons y ys =>
          rw [List.getLastD_cons]
          subst hr
          right
          exact ih (by simp)


/-! ### C4: the `trn://` URL round trip -/

/-- All nine component fields populated (Python truthiness on the four
optional fields; the required five are non-empty strings whenever the
set was constructible). -/
def allNinePresent (c : Components) : Bool :=
  isPresent c.scope && isPresent c.subtype && isPresent c.tag && isPresent c.hash

/-- Every field lies in its grammar character class — the "no
information loss" reading: on these values the codec's escaping is
exact and invertible. -/
def fieldsGrammarOk (c : Components) : Bool :=
  platformOk c.platform.data && rtypeOk c.resource_type.data && typeOk c.type.data &&
    instOk c.instance_id.data && versionOk c.version.data &&
    scopeOk (c.scope.getD "").data && typeOk (c.subtype.getD "").data &&
    tagOk (c.tag.getD "").data && hashOk (c.hash.getD "").data

lemma isPrefixOf_append_self (a b : List Char) : a.isPrefixOf (a ++ b) = true := by
  induction a with
  | nil => simp [List.isPrefixOf]
  | cons c rest ih =>
      show (c == c && rest.isPrefixOf (rest ++ b)) = true
      simp [ih]

lemma mk_ne_empty (l : List Char) (h : l ≠ []) : (⟨l⟩ : String) ≠ "" :=
  fun he => h (congrArg String.data he)

lemma str_ne_empty_of_data (s : String) (h : s.data ≠ []) : s ≠ "" :=
  fun he => h (congrArg String.data he)

lemma dotEnc_ne_nil (c : Char) : dotEnc c ≠ [] := by
  unfold dotEnc
  split_ifs <;> simp

lemma flatMap_dotEnc_ne_nil (l : List Char) (hl : l ≠ []) : l.flatMap dotEnc ≠ [] := by
  cases l with
  | nil => exact absurd rfl hl
  | cons c rest =>
      simp only [List.flatMap_cons]
      intro he
      exact dotEnc_ne_nil c (List.append_eq_nil.mp he).1

lemma pyQuote_ne_nil (l : List Char) (hl : l ≠ []) : pyQuote l ≠ [] := by
  cases l with
  | nil => exact absurd rfl hl
  | cons c rest =>
      rw [pyQuote_cons]
      intro he
      have h1 := (List.append_eq_nil.mp he).1
      revert h1
      split_ifs <;> simp

/-- On grammar-class text the ten `URL_ENCODING_MAP` replacements reduce
to the single `.` escape: the other nine targets never occur, before or
after the `.` step. -/
lemma encodeComponent_main (s : String) (hne : s ≠ "")
    (h : ∀ c ∈ s.data, mainChar c = true) :
    (encodeComponent s).data = s.data.flatMap dotEnc := by
  unfold encodeComponent
  rw [if_neg hne]
  have hd : ∀ (l : List Char), ({ data := l } : String).data = l := fun _ => rfl
  rw [hd]
  have hstep : urlEncodingMap.foldl (fun acc p => pyReplaceChar acc p.1 p.2) s.data =
      pyReplaceChar (pyReplaceChar (pyReplaceChar (pyReplaceChar (pyReplaceChar
        (pyReplaceChar (pyReplaceChar (pyReplaceChar (pyReplaceChar (pyReplaceChar
          s.data ':' ['%', '3', 'A']) '/' ['%', '2', 'F']) '.' ['%', '2', 'E'])
          '@' ['%', '4', '0']) '#' ['%', '2', '3']) '?' ['%', '3', 'F'])
          '&' ['%', '2', '6']) '=' ['%', '3', 'D']) '+' ['%', '2', 'B'])
          ' ' ['%', '2', '0'] := by
    simp only [urlEncodingMap, List.foldl_cons, List.foldl_nil]
  rw [hstep]
  rw [pyReplaceChar_no_target s.data ':' ['%', '3', 'A']
    (fun c hc => mainChar_ne_colon c (h c hc))]
  rw [pyReplaceChar_no_target s.data '/' ['%', '2', 'F']
    (fun c hc => ne_of_true_false (h c hc) (by decide))]
  have hdot : pyReplaceChar s.data '.' ['%', '2', 'E'] = s.data.flatMap dotEnc := rfl
  rw [hdot]
  have henc := flatMap_dotEnc_chars s.data h
  rw [pyReplaceChar_no_target (s.data.flatMap dotEnc) '@' ['%', '4', '0']
    (fun c hc => ne_of_true_false (henc c hc) (by decide))]
  rw [pyReplaceChar_no_target (s.data.flatMap dotEnc) '#' ['%', '2', '3']
    (fun c hc => ne_of_true_false (henc c hc) (by decide))]
  rw [pyReplaceChar_no_target (s.data.flatMap dotEnc) '?' ['%', '3', 'F']
    (fun c hc => ne_of_true_false (henc c hc) (by decide))]
  rw [pyReplaceChar_no_target (s.data.flatMap dotEnc) '&' ['%', '2', '6']
    (fun c hc => ne_of_true_false (henc c hc) (by decide))]
  rw [pyReplaceChar_no_target (s.data.flatMap dotEnc) '=' ['%', '3', 'D']
    (fun c hc => ne_of_true_false (henc c hc) (by decide))]
  rw [pyReplaceChar_no_target (s.data.flatMap dotEnc) '+' ['%', '2', 'B']
    (fun c hc => ne_of_true_false (henc c hc) (by decide))]
  rw [pyReplaceChar_no_target (s.data.flatMap dotEnc) ' ' ['%', '2', '0']
    (fun c hc => ne_of_true_false (henc c hc) (by decide))]

lemma decode_raw_eq (l : List Char) (hne : l ≠ []) (hm : ∀ c ∈ l, mainChar c = true) :
    decodeComponent ⟨l⟩ = ⟨l⟩ := by
  unfold decodeComponent
  rw [if_neg (mk_ne_empty l hne)]
  congr 1
  exact percentDecode_no_pct l fun c hc => ne_of_true_false (hm c hc) (by decide)

lemma decode_enc_eq (l : List Char) (hne : l ≠ []) (hm : ∀ c ∈ l, mainChar c = true) :
    decodeComponent ⟨l.flatMap dotEnc⟩ = ⟨l⟩ := by
  unfold decodeComponent
  rw [if_neg (mk_ne_empty _ (flatMap_dotEnc_ne_nil l hne))]
  congr 1
  exact percentDecode_dotEnc l hm

/-- Decoding a URL of exactly the shape `_to_trn_url` produces for a
nine-field grammar-class component set: the scheme check passes, the
path yields the eight decoded segments in order, and the `hash` query
parameter is recovered unquoted. -/
lemma urlDecode_of_shape (url : String)
    (pl sc rt ty su iid ver tg hsd : List Char)
    (hurl : url.data = "trn://".data ++
      ((pl ++ '/' :: (sc.flatMap dotEnc ++ '/' :: (rt ++ '/' :: (ty ++ '/' ::
        (su.flatMap dotEnc ++ '/' :: (iid.flatMap dotEnc ++ '/' ::
          (ver.flatMap dotEnc ++ '/' :: tg.flatMap dotEnc))))))) ++
        '?' :: (['h', 'a', 's', 'h'] ++ '=' :: pyQuote hsd)))
    (hplne : pl ≠ []) (hplm : ∀ c ∈ pl, mainChar c = true)
    (hscne : sc ≠ []) (hscm : ∀ c ∈ sc, mainChar c = true)
    (hrtne : rt ≠ []) (hrtm : ∀ c ∈ rt, mainChar c = true)
    (htyne : ty ≠ []) (htym : ∀ c ∈ ty, mainChar c = true)
    (hsune : su ≠ []) (hsum : ∀ c ∈ su, mainChar c = true)
    (hiidne : iid ≠ []) (hiidm : ∀ c ∈ iid, mainChar c = true)
    (hverne : ver ≠ []) (hverm : ∀ c ∈ ver, mainChar c = true)
    (htgne : tg ≠ []) (htgm : ∀ c ∈ tg, mainChar c = true)
    (hhsne : hsd ≠ []) (hhsm : ∀ c ∈ hsd, isHashChar c = true) :
    "trn://".data.isPrefixOf url.data = true ∧
      urlSegments url = [⟨pl⟩, ⟨sc⟩, ⟨rt⟩, ⟨ty⟩, ⟨su⟩, ⟨iid⟩, ⟨ver⟩, ⟨tg⟩] ∧
      urlHashValue url = some ⟨hsd⟩ := by
  set B := pl ++ '/' :: (sc.flatMap dotEnc ++ '/' :: (rt ++ '/' :: (ty ++ '/' ::
    (su.flatMap dotEnc ++ '/' :: (iid.flatMap dotEnc ++ '/' ::
      (ver.flatMap dotEnc ++ '/' :: tg.flatMap dotEnc)))))) with hB
  set Q := ['h', 'a', 's', 'h'] ++ '=' :: pyQuote hsd with hQ
  have hpre : "trn://".data.isPrefixOf url.data = true := by
    rw [hurl]
    exact isPrefixOf_append_self _ _
  have hdrop : url.data.drop 6 = B ++ '?' :: Q := by
    rw [hurl, show (6 : Nat) = ("trn://".data : List Char).length from rfl]
    exact List.drop_left _ _
  have hbodym : ∀ ch ∈ B, encChar ch = true ∨ ch = '/' := by
    intro ch hch
    rw [hB] at hch
    simp only [List.mem_append, List.mem_cons] at hch
    rcases hch with h | h | h | h | h | h | h | h | h | h | h | h | h | h | h
    · exact .inl (mainChar_encChar ch (hplm ch h))
    · exact .inr h
    · exact .inl (flatMap_dotEnc_chars sc hscm ch h)
    · exact .inr h
    · exact .inl (mainChar_encChar ch (hrtm ch h))
    · exact .inr h
    · exact .inl (mainChar_encChar ch (htym ch h))
    · exact .inr h
    · exact .inl (flatMap_dotEnc_chars su hsum ch h)
    · exact .inr h
    · exact .inl (flatMap_dotEnc_chars iid hiidm ch h)
    · exact .inr h
    · exact .inl (flatMap_dotEnc_chars ver hverm ch h)
    · exact .inr h
    · exact .inl (flatMap_dotEnc_chars tg htgm ch h)
  have hBne : ∀ ch ∈ B, ch ≠ '#' ∧ ch ≠ '?' := by
    intro ch hch
    rcases hbodym ch hch with h | rfl
    · exact ⟨ne_of_true_false h (by decide), ne_of_true_false h (by decide)⟩
    · exact ⟨by decide, by decide⟩
  have hQne : ∀ ch ∈ Q, ch ≠ '#' ∧ ch ≠ '&' := by
    intro ch hch
    rw [hQ] at hch
    rcases List.mem_append.mp hch with h | h
    · simp only [List.mem_cons, List.not_mem_nil, or_false] at h
      rcases h with rfl | rfl | rfl | rfl
      · exact ⟨by decide, by decide⟩
      · exact ⟨by decide, by decide⟩
      · exact ⟨by decide, by decide⟩
      · exact ⟨by decide, by decide⟩
    · rcases List.mem_cons.mp h with rfl | h
      · exact ⟨by decide, by decide⟩
      · have he := pyQuote_chars hsd hhsm ch h
        exact ⟨ne_of_true_false he (by decide), ne_of_true_false he (by decide)⟩
  have hbf : ((B ++ '?' :: Q).takeWhile (· ≠ '#')) = B ++ '?' :: Q := by
    apply takeWhile_all_sat
    intro ch hch
    rcases List.mem_append.mp hch with h | h
    · exact decide_eq_true (hBne ch h).1
    · rcases List.mem_cons.mp h with rfl | h
      · decide
      · exact decide_eq_true (hQne ch h).1
  have hquery : urlQueryPart url = Q := by
    unfold urlQueryPart
    rw [hdrop, hbf]
    rw [dropWhile_append_stop (· ≠ '?') B Q '?'
      (fun x hx => decide_eq_true (hBne x hx).2) (by decide)]
    exact List.tail_cons
  have hpath : urlPathPart url = B := by
    unfold urlPathPart
    rw [hdrop, hbf]
    exact takeWhile_append_stop (· ≠ '?') B Q '?'
      (fun x hx => decide_eq_true (hBne x hx).2) (by decide)
  have hE8ne : tg.flatMap dotEnc ≠ [] := flatMap_dotEnc_ne_nil tg htgne
  have hlead : stripLeadSlash B = B := by
    unfold stripLeadSlash
    obtain ⟨p₁, pr, hpl⟩ := List.exists_cons_of_ne_nil hplne
    have hhead : B.headD ' ' = p₁ := by
      rw [hB, hpl]
      simp only [List.cons_append, List.headD_cons]
    rw [if_neg ?hne]
    case hne =>
      rw [hhead]
      exact ne_of_true_false (hplm p₁ (by rw [hpl]; exact List.mem_cons_self _ _)) (by decide)
  have hlastmem : B.getLastD ' ' ∈ tg.flatMap dotEnc := by
    rw [hB]
    rw [getLastD_append_right pl _ (by simp) ' ', List.getLastD_cons]
    rw [getLastD_append_right (sc.flatMap dotEnc) _ (by simp) '/', List.getLastD_cons]
    rw [getLastD_append_right rt _ (by simp) '/', List.getLastD_cons]
    rw [getLastD_append_right ty _ (by simp) '/', List.getLastD_cons]
    rw [getLastD_append_right (su.flatMap dotEnc) _ (by simp) '/', List.getLastD_cons]
    rw [getLastD_append_right (iid.flatMap dotEnc) _ (by simp) '/', List.getLastD_cons]
    rw [getLastD_append_right (ver.flatMap dotEnc) _ (by simp) '/', List.getLastD_cons]
    exact getLastD_mem _ hE8ne '/'
  have htrail : stripTrailSlash B = B := by
    unfold stripTrailSlash
    rw [if_neg (ne_of_true_false (flatMap_dotEnc_chars tg htgm _ hlastmem) (by decide))]
  have hB2 : B = List.intercalate ['/'] [pl, sc.flatMap dotEnc, rt, ty, su.flatMap dotEnc,
      iid.flatMap dotEnc, ver.flatMap dotEnc, tg.flatMap dotEnc] := by
    rw [hB]
    simp only [intercalate_cons_cons, intercalate_single, List.append_assoc,
      List.singleton_append]
  have hnosl : ∀ l ∈ [pl, sc.flatMap dotEnc, rt, ty, su.flatMap dotEnc,
      iid.flatMap dotEnc, ver.flatMap dotEnc, tg.flatMap dotEnc], '/' ∉ l := by
    intro l hl
    simp only [List.mem_cons, List.not_mem_nil, or_false] at hl
    rcases hl with rfl | rfl | rfl | rfl | rfl | rfl | rfl | rfl
    · exact fun hc => ne_of_true_false (hplm '/' hc) (by decide) rfl
    · exact fun hc => ne_of_true_false (flatMap_dotEnc_chars sc hscm '/' hc) (by decide) rfl
    · exact fun hc => ne_of_true_false (hrtm '/' hc) (by decide) rfl
    · exact fun hc => ne_of_true_false (htym '/' hc) (by decide) rfl
    · exact fun hc => ne_of_true_false (flatMap_dotEnc_chars su hsum '/' hc) (by decide) rfl
    · exact fun hc => ne_of_true_false (flatMap_dotEnc_chars iid hiidm '/' hc) (by decide) rfl
    · exact fun hc => ne_of_true_false (flatMap_dotEnc_chars ver hverm '/' hc) (by decide) rfl
    · exact fun hc => ne_of_true_false (flatMap_dotEnc_chars tg htgm '/' hc) (by decide) rfl
  have hsplit : B.splitOn '/' = [pl, sc.flatMap dotEnc, rt, ty, su.flatMap dotEnc,
      iid.flatMap dotEnc, ver.flatMap dotEnc, tg.flatMap dotEnc] := by
    rw [hB2]
    exact List.splitOn_intercalate _ '/' hnosl (by simp)
  have hfilt : ([pl, sc.flatMap dotEnc, rt, ty, su.flatMap dotEnc, iid.flatMap dotEnc,
      ver.flatMap dotEnc, tg.flatMap dotEnc].filter (· ≠ [])) =
      [pl, sc.flatMap dotEnc, rt, ty, su.flatMap dotEnc, iid.flatMap dotEnc,
        ver.flatMap dotEnc, tg.flatMap dotEnc] := by
    rw [List.filter_eq_self]
    intro a ha
    simp only [List.mem_cons, List.not_mem_nil, or_false] at ha
    rcases ha with rfl | rfl | rfl | rfl | rfl | rfl | rfl | rfl
    · exact decide_eq_true hplne
    · exact decide_eq_true (flatMap_dotEnc_ne_nil sc hscne)
    · exact decide_eq_true hrtne
    · exact decide_eq_true htyne
    · exact decide_eq_true (flatMap_dotEnc_ne_nil su hsune)
    · exact decide_eq_true (flatMap_dotEnc_ne_nil iid hiidne)
    · exact decide_eq_true (flatMap_dotEnc_ne_nil ver hverne)
    · exact decide_eq_true hE8ne
  have hmap : ([pl, sc.flatMap dotEnc, rt, ty, su.flatMap dotEnc, iid.flatMap dotEnc,
      ver.flatMap dotEnc, tg.flatMap dotEnc].map fun seg => decodeComponent ⟨seg⟩) =
      [⟨pl⟩, ⟨sc⟩, ⟨rt⟩, ⟨ty⟩, ⟨su⟩, ⟨iid⟩, ⟨ver⟩, ⟨tg⟩] := by
    simp only [List.map_cons, List.map_nil]
    rw [decode_raw_eq pl hplne hplm, decode_enc_eq sc hscne hscm,
      decode_raw_eq rt hrtne hrtm, decode_raw_eq ty htyne htym,
      decode_enc_eq su hsune hsum, decode_enc_eq iid hiidne hiidm,
      decode_enc_eq ver hverne hverm, decode_enc_eq tg htgne htgm]
  have hsegs : urlSegments url = [⟨pl⟩, ⟨sc⟩, ⟨rt⟩, ⟨ty⟩, ⟨su⟩, ⟨iid⟩, ⟨ver⟩, ⟨tg⟩] := by
    unfold urlSegments
    rw [hpath, hlead, htrail, hsplit, hfilt, hmap]
  have hQne2 : Q ≠ [] := by
    rw [hQ]
    simp
  have hnoamp : '&' ∉ Q := fun hc => (hQne '&' hc).2 rfl
  have hkey : pyUnquotePlus ['h', 'a', 's', 'h'] = "hash".data := by
    unfold pyUnquotePlus
    rw [show ((['h', 'a', 's', 'h'].map fun c => if c = '+' then ' ' else c) : List Char) =
      ['h', 'a', 's', 'h'] from by decide]
    rw [percentDecode_no_pct _ (by decide)]
  have hmem : ('=' : Char) ∈ Q := by
    rw [hQ]
    exact List.mem_append.mpr (.inr (List.mem_cons_self _ _))
  have hfind : findHashParam [Q] = some hsd := by
    rw [hQ]
    simp only [findHashParam]
    rw [if_pos (hQ ▸ hmem)]
    rw [takeWhile_append_stop (· ≠ '=') ['h', 'a', 's', 'h'] (pyQuote hsd) '='
      (by decide) (by decide)]
    rw [dropWhile_append_stop (· ≠ '=') ['h', 'a', 's', 'h'] (pyQuote hsd) '='
      (by decide) (by decide)]
    simp only [List.tail_cons]
    rw [if_pos ⟨hkey, pyQuote_ne_nil hsd hhsne⟩]
    rw [unquotePlus_quote hsd hhsm]
  have hhv : urlHashValue url = some ⟨hsd⟩ := by
    unfold urlHashValue
    rw [hquery, if_pos hQne2, splitOn_no_sep '&' Q hnoamp, hfind]
    rfl
  exact ⟨hpre, hsegs, hhv⟩

/-- `TRN(..., validate=True)` succeeds outright on a component set that
passes both `__post_init__` and strict validation. -/
lemma mkTRN_ok (c : Components) (hpi : postInit c = .ok ())
    (hv : validateComponentsDict c strictValidationDefault = .ok ()) :
    mkTRN c (some true) = .ok c := by
  unfold mkTRN
  rw [hpi, hv]
  rfl


/-- C4: the `trn://` URL round trip. For every component set with all
nine fields populated, each field inside its grammar character class
(the "no information loss" proviso: on such values the codec's
escaping is exact), that passes construction (`__post_init__`) and
strict validation — i.e. for every constructible, valid nine-field
TRN — converting to the `trn://` URL dialect (per-segment
percent-encoding, hash as query parameter) and parsing back recovers
exactly the original nine component values. -/
theorem c4_url_roundtrip (c : Components) (h9 : allNinePresent c = true)
    (hg : fieldsGrammarOk c = true) (hpi : postInit c = .ok ())
    (hv : validateComponentsDict c true = .ok ()) :
    fromTrnUrl (toTrnUrl c) true = .ok c := by
  obtain ⟨pl, rt, ty, iid, ver, osc, osu, otg, ohs⟩ := c
  rcases osc with _ | sc
  · simp [allNinePresent, isPresent] at h9
  rcases osu with _ | su
  · simp [allNinePresent, isPresent] at h9
  rcases otg with _ | tg
  · simp [allNinePresent, isPresent] at h9
  rcases ohs with _ | hs
  · simp [allNinePresent, isPresent] at h9
  simp only [fieldsGrammarOk, Option.getD_some, Bool.and_eq_true] at hg
  obtain ⟨⟨⟨⟨⟨⟨⟨⟨hgpl, hgrt⟩, hgty⟩, hgiid⟩, hgver⟩, hgsc⟩, hgsu⟩, hgtg⟩, hghs⟩ := hg
  obtain ⟨hplne, hplm⟩ := platformOk_props pl.data hgpl
  obtain ⟨hrtne, hrtm⟩ := rtypeOk_props rt.data hgrt
  obtain ⟨htyne, htym⟩ := typeOk_props ty.data hgty
  obtain ⟨hiidne, hiidm⟩ := instOk_props iid.data hgiid
  obtain ⟨hverne, hverm⟩ := versionOk_props ver.data hgver
  obtain ⟨hscne, hscm⟩ := scopeOk_props sc.data hgsc
  obtain ⟨hsune, hsum⟩ := typeOk_props su.data hgsu
  obtain ⟨htgne, htgm⟩ := tagOk_props tg.data hgtg
  obtain ⟨hhsne, hhsm⟩ := hashOk_props hs.data hghs
  have hscs : sc ≠ "" := str_ne_empty_of_data sc hscne
  have hsus : su ≠ "" := str_ne_empty_of_data su hsune
  have htgs : tg ≠ "" := str_ne_empty_of_data tg htgne
  have hhss : hs ≠ "" := str_ne_empty_of_data hs hhsne
  have hurl : (toTrnUrl ⟨pl, rt, ty, iid, ver, some sc, some su, some tg, some hs⟩).data =
      "trn://".data ++
        ((pl.data ++ '/' :: (sc.data.flatMap dotEnc ++ '/' :: (rt.data ++ '/' ::
          (ty.data ++ '/' :: (su.data.flatMap dotEnc ++ '/' :: (iid.data.flatMap dotEnc ++
            '/' :: (ver.data.flatMap dotEnc ++ '/' :: tg.data.flatMap dotEnc))))))) ++
          '?' :: (['h', 'a', 's', 'h'] ++ '=' :: pyQuote hs.data)) := by
    show "trn://".data ++ pl.data ++
        (if sc = "" then [] else '/' :: (encodeComponent sc).data) ++
        ('/' :: rt.data) ++ ('/' :: ty.data) ++
        (if su = "" then [] else '/' :: (encodeComponent su).data) ++
        ('/' :: (encodeComponent iid).data) ++ ('/' :: (encodeComponent ver).data) ++
        (if tg = "" then [] else '/' :: (encodeComponent tg).data) ++
        (if hs = "" then [] else "?hash=".data ++ pyQuote hs.data) = _
    rw [if_neg hscs, if_neg hsus, if_neg htgs, if_neg hhss]
    rw [encodeComponent_main sc hscs hscm, encodeComponent_main su hsus hsum,
      encodeComponent_main iid (str_ne_empty_of_data iid hiidne) hiidm,
      encodeComponent_main ver (str_ne_empty_of_data ver hverne) hverm,
      encodeComponent_main tg htgs htgm]
    rw [show ("?hash=".data : List Char) = '?' :: 'h' :: 'a' :: 's' :: 'h' :: '=' :: []
      from rfl]
    simp only [List.append_assoc, List.cons_append, List.nil_append]
  obtain ⟨hpre, hsegs, hhv⟩ :=
    urlDecode_of_shape (toTrnUrl ⟨pl, rt, ty, iid, ver, some sc, some su, some tg, some hs⟩)
      pl.data sc.data rt.data ty.data su.data iid.data ver.data tg.data hs.data hurl
      hplne hplm hscne hscm hrtne hrtm htyne htym hsune hsum hiidne hiidm hverne hverm
      htgne htgm hhsne hhsm
  have hmap8 : mapUrlComponents [⟨pl.data⟩, ⟨sc.data⟩, ⟨rt.data⟩, ⟨ty.data⟩, ⟨su.data⟩,
      ⟨iid.data⟩, ⟨ver.data⟩, ⟨tg.data⟩] (some ⟨hs.data⟩) =
      .ok ⟨⟨pl.data⟩, ⟨rt.data⟩, ⟨ty.data⟩, ⟨iid.data⟩, ⟨ver.data⟩, some ⟨sc.data⟩,
        some ⟨su.data⟩, some ⟨tg.data⟩, some ⟨hs.data⟩⟩ := rfl
  unfold fromTrnUrl
  rw [if_neg (not_not_intro hpre)]
  rw [hsegs]
  have hlen : ¬(([⟨pl.data⟩, ⟨sc.data⟩, ⟨rt.data⟩, ⟨ty.data⟩, ⟨su.data⟩, ⟨iid.data⟩,
      ⟨ver.data⟩, ⟨tg.data⟩] : List String).length < 5) := by
    simp
  rw [if_neg hlen]
  rw [hhv, hmap8]
  exact mkTRN_ok ⟨pl, rt, ty, iid, ver, some sc, some su, some tg, some hs⟩ hpi hv

/-- C4 witness: the round trip at the concrete nine-field TRN
`trn:user:alice:tool:openapi:async:github-api:v1.0:beta@sha256:abc123`. -/
theorem c4_url_roundtrip_witness :
    fromTrnUrl (toTrnUrl ⟨"user", "tool", "openapi", "github-api", "v1.0", some "alice",
      some "async", some "beta", some "sha256:abc123"⟩) true =
      .ok ⟨"user", "tool", "openapi", "github-api", "v1.0", some "alice", some "async",
        some "beta", some "sha256:abc123"⟩ :=
  c4_url_roundtrip ⟨"user", "tool", "openapi", "github-api", "v1.0", some "alice",
    some "async", some "beta", some "sha256:abc123"⟩ (by decide) (by decide) (by decide)
    (by decide)

end TRNSpec
